import Mathlib

/-!
Verification development for the `file_diff_analyzer` repository.

This file gives a shallow embedding, in Lean 4, of the parts of
`src/file_diff_analyzer/analyzer.py` and
`src/file_diff_analyzer/universal_analyzer.py` that the checked claims
are about, together with theorems settling those claims.

Modelling conventions:
* Python text is modelled as `List Char`; helper functions reproduce the
  Python `str` operations used by the source (`split`, `strip`, `lower`,
  `split('\n')`) for the ASCII inputs the analyzer manipulates.
* Python floats are modelled as exact rationals (`ℚ`); `round(x, 2)` is
  modelled as exact round-half-to-even at two decimals.
* Python sets of words are modelled as `Finset (List Char)`.
* Fallible code (raised exceptions, missing dictionary keys) is modelled
  with `Except`.
-/

namespace FDA

/-- The characters that Python `str.split()` / `str.strip()` treat as
whitespace, and that the regex class `\s` matches, in the ASCII range. -/
def isSpaceChar (c : Char) : Bool :=
  c = ' ' || c = '\t' || c = '\n' || c = '\r' || c = '\x0b' || c = '\x0c'

/-- The characters matched by the regex class `\w` (word characters), in
the ASCII range: letters, digits and the underscore.  The source uses the
Unicode-aware Python `re`; all inputs considered here are ASCII. -/
def isWordChar (c : Char) : Bool :=
  c.isAlphanum || c = '_'

/-- A line (or word) of text, as a character list. -/
abbrev Line := List Char

/-- Character list of a string literal. -/
def str (s : String) : Line := s.data

/-- Python `str.lower()` (ASCII behaviour). -/
def pyLower (s : Line) : Line := s.map Char.toLower

/-- Python `str.strip()`: remove leading and trailing whitespace. -/
def pyStrip (s : Line) : Line :=
  ((s.dropWhile isSpaceChar).reverse.dropWhile isSpaceChar).reverse

/-- Helper for `pySplitWs`: accumulates the current word (reversed). -/
def splitWsAux : List Char → List Char → List Line
  | [], acc => if acc = [] then [] else [acc.reverse]
  | c :: rest, acc =>
    if isSpaceChar c then
      if acc = [] then splitWsAux rest [] else acc.reverse :: splitWsAux rest []
    else splitWsAux rest (c :: acc)

/-- Python `str.split()` with no argument: split on runs of whitespace,
dropping empty results. -/
def pySplitWs (s : Line) : List Line := splitWsAux s []

/-- Python `str.split('\n')`: split at every newline, keeping empty
pieces (the result always has at least one element). -/
def splitOnNl : List Char → List Line
  | [] => [[]]
  | c :: rest =>
    if c = '\n' then [] :: splitOnNl rest
    else
      match splitOnNl rest with
      | [] => [[c]]
      | w :: ws => (c :: w) :: ws

/-- Python `'\n'.join(lines)`. -/
def joinNl (lines : List Line) : Line := List.intercalate (str "\n") lines

/-!  Rational arithmetic wrappers.

The kernel cannot unfold the primitive `Rat.add`, `Rat.mul`, `Rat.sub`
and `Rat.div`, which would block `decide` on every concrete evaluation.
The wrappers below compute the same values through `Rat.divInt` (which
the kernel does reduce); the bridge lemmas prove them equal to the
ordinary field operations, so symbolic reasoning can stay in `ℚ`. -/

/-- Kernel-reducible addition on `ℚ`. -/
def qAdd (a b : ℚ) : ℚ := Rat.divInt (a.num * b.den + b.num * a.den) ((a.den : ℤ) * b.den)

/-- Kernel-reducible subtraction on `ℚ`. -/
def qSub (a b : ℚ) : ℚ := Rat.divInt (a.num * b.den - b.num * a.den) ((a.den : ℤ) * b.den)

/-- Kernel-reducible multiplication on `ℚ`. -/
def qMul (a b : ℚ) : ℚ := Rat.divInt (a.num * b.num) ((a.den : ℤ) * b.den)

/-- Kernel-reducible division on `ℚ`. -/
def qDiv (a b : ℚ) : ℚ := Rat.divInt (a.num * b.den) ((a.den : ℤ) * b.num)

theorem qAdd_eq (a b : ℚ) : qAdd a b = a + b := by
  have hb : ((a.den : ℤ)) ≠ 0 := by exact_mod_cast a.den_ne_zero
  have hd : ((b.den : ℤ)) ≠ 0 := by exact_mod_cast b.den_ne_zero
  rw [qAdd]
  conv_rhs => rw [← Rat.num_divInt_den a, ← Rat.num_divInt_den b]
  rw [Rat.divInt_add_divInt _ _ hb hd]

theorem qSub_eq (a b : ℚ) : qSub a b = a - b := by
  have hb : ((a.den : ℤ)) ≠ 0 := by exact_mod_cast a.den_ne_zero
  have hd : ((b.den : ℤ)) ≠ 0 := by exact_mod_cast b.den_ne_zero
  rw [qSub]
  conv_rhs => rw [← Rat.num_divInt_den a, ← Rat.num_divInt_den b]
  rw [Rat.divInt_sub_divInt _ _ hb hd]

theorem qMul_eq (a b : ℚ) : qMul a b = a * b := by
  rw [qMul]
  conv_rhs => rw [← Rat.num_divInt_den a, ← Rat.num_divInt_den b]
  rw [Rat.divInt_mul_divInt']

theorem qDiv_eq (a b : ℚ) : qDiv a b = a / b := by
  rw [qDiv, Rat.div_def']

/-- Round half to even to the nearest integer (the rounding Python
`round` performs), on exact rationals. -/
def roundHalfEven (q : ℚ) : ℤ :=
  let f := ⌊q⌋
  let r := qSub q (f : ℚ)
  if r < mkRat 1 2 then f
  else if mkRat 1 2 < r then f + 1
  else if f % 2 = 0 then f else f + 1

/-- Python `round(x, 2)` modelled on exact rationals. -/
def pyRound2 (q : ℚ) : ℚ := Rat.divInt (roundHalfEven (qMul q 100)) 100

/-- Model of `models.FileType` (the members used by the comparison logic). -/
inductive FileType where
  | pdf | docx | excel | csv | txt | text_segment
deriving DecidableEq, Inhabited

/-- Model of `models.FileInfo`.  The derived statistics (`word_count`,
`line_count`, `size_bytes`) are not consulted by any comparison logic and
are omitted. -/
structure FileInfo where
  name : String
  file_type : FileType
  content : Line
deriving DecidableEq, Inhabited

/-- Model of `models.AnalysisConfig` (defaults as in the source).  The pydantic
range validation on `tolerance_percentage` and `max_file_size_mb` is not
itself under analysis and is not modelled. -/
structure AnalysisConfig where
  tolerance_percentage : ℚ := 30
  enable_word_analysis : Bool := true
  enable_line_analysis : Bool := true
  case_sensitive : Bool := false
  ignore_whitespace : Bool := true
  max_file_size_mb : ℚ := 100
deriving DecidableEq, Inhabited

/-- Model of `models.DifferenceInfo`. -/
structure DifferenceInfo where
  similarity_percentage : ℚ
  difference_percentage : ℚ
  common_words : ℕ
  unique_words_file1 : ℕ
  unique_words_file2 : ℕ
  is_significantly_different : Bool
deriving DecidableEq, Inhabited

/-- Model of `FileDiffAnalyzer._extract_words`: normalize case per the
configuration, optionally strip empty lines (`normalize_structure`),
split into words, delete non-word non-space characters from each word
(the regex substitution `re.sub(r'[^\w\s]', '', word)`), drop empties,
and collect the result as a set. -/
def extractWords (cfg : AnalysisConfig) (normalizeStructure : Bool) (text : Line) :
    Finset Line :=
  if text = [] then ∅
  else
    let text1 := if cfg.case_sensitive then text else pyLower text
    let normalizedText :=
      if normalizeStructure then
        joinNl (((splitOnNl text1).map pyStrip).filter (fun l => decide (l ≠ [])))
      else text1
    let words :=
      if cfg.ignore_whitespace then
        ((pySplitWs normalizedText).map pyStrip).filter (fun w => decide (w ≠ []))
      else
        (splitOnNl normalizedText).flatMap
          (fun line => ((pySplitWs line).map pyStrip).filter (fun w => decide (w ≠ [])))
    let cleaned := words.filterMap (fun w =>
      let cw := w.filter (fun c => isWordChar c || isSpaceChar c)
      if cw = [] then none else some cw)
    cleaned.toFinset

/-- The two word sets `_compare_files` builds from a pair of files,
including the PDF-driven `normalize_structure` flags. -/
def wordSetsOf (cfg : AnalysisConfig) (f1 f2 : FileInfo) : Finset Line × Finset Line :=
  let hasPdf := f1.file_type = FileType.pdf ∨ f2.file_type = FileType.pdf
  (extractWords cfg (decide hasPdf && !(decide (f1.file_type = FileType.pdf))) f1.content,
   extractWords cfg (decide hasPdf && !(decide (f2.file_type = FileType.pdf))) f2.content)

/-- The unrounded similarity percentage computed inside
`FileDiffAnalyzer._compare_files` (the local variable
`similarity_percentage` before rounding). -/
def similarityExact (cfg : AnalysisConfig) (f1 f2 : FileInfo) : ℚ :=
  let w1 := (wordSetsOf cfg f1 f2).1
  let w2 := (wordSetsOf cfg f1 f2).2
  let totalWords := w1.card + w2.card
  if totalWords = 0 then 100
  else qMul (qDiv (((w1 ∩ w2).card * 2 : ℕ) : ℚ) (totalWords : ℚ)) 100

/-- The unrounded difference percentage computed inside
`FileDiffAnalyzer._compare_files` (the local variable
`difference_percentage` before rounding). -/
def differenceExact (cfg : AnalysisConfig) (f1 f2 : FileInfo) : ℚ :=
  let w1 := (wordSetsOf cfg f1 f2).1
  let w2 := (wordSetsOf cfg f1 f2).2
  let totalWords := w1.card + w2.card
  if totalWords = 0 then 0
  else qMul (qDiv (((w1 \ w2).card + (w2 \ w1).card : ℕ) : ℚ) (totalWords : ℚ)) 100

/-- Model of `FileDiffAnalyzer._compare_files`: set statistics, percentages
rounded to two decimals, and the significance flag (which the source
computes from the unrounded difference percentage). -/
def compareFiles (cfg : AnalysisConfig) (f1 f2 : FileInfo) : DifferenceInfo :=
  let w1 := (wordSetsOf cfg f1 f2).1
  let w2 := (wordSetsOf cfg f1 f2).2
  { similarity_percentage := pyRound2 (similarityExact cfg f1 f2)
    difference_percentage := pyRound2 (differenceExact cfg f1 f2)
    common_words := (w1 ∩ w2).card
    unique_words_file1 := (w1 \ w2).card
    unique_words_file2 := (w2 \ w1).card
    is_significantly_different :=
      decide (differenceExact cfg f1 f2 > cfg.tolerance_percentage) }

/-- Model of `models.ComparisonResult`.  The wall-clock
`analysis_timestamp` is impure and outside the modelled logic. -/
structure ComparisonResult where
  files : List FileInfo
  comparison_matrix : List DifferenceInfo
  tolerance_threshold : ℚ
deriving DecidableEq, Inhabited

/-- Errors the analyzer can raise, modelled explicitly. -/
inductive PyErr where
  | valueError (msg : String)
  | keyError (key : String)
deriving DecidableEq, Inhabited

deriving instance DecidableEq for Except

/-- The pairwise comparison loop of `FileDiffAnalyzer.analyze`: compare
every pair `i < j` in order. -/
def pairwiseCompare (cfg : AnalysisConfig) (files : List FileInfo) : List DifferenceInfo :=
  files.enum.flatMap (fun p =>
    (files.drop (p.1 + 1)).map (fun f2 => compareFiles cfg p.2 f2))

/-- Model of `FileDiffAnalyzer.analyze`: requires at least two files,
then builds the pairwise comparison matrix. -/
def analyze (cfg : AnalysisConfig) (files : List FileInfo) :
    Except PyErr ComparisonResult :=
  if files.length < 2 then
    .error (.valueError "At least 2 files required for analysis")
  else
    .ok { files := files
          comparison_matrix := pairwiseCompare cfg files
          tolerance_threshold := cfg.tolerance_percentage }

/-- Lexicographic comparison of character lists by code point, the order
Python `sorted` uses on strings. -/
def wordLe : Line → Line → Bool
  | [], _ => true
  | _ :: _, [] => false
  | c :: cs, d :: ds =>
    if c.val < d.val then true
    else if d.val < c.val then false
    else wordLe cs ds

/-- Insertion step of `sortLe`. -/
def insertLe {α : Type} (le : α → α → Bool) (x : α) : List α → List α
  | [] => [x]
  | y :: ys => if le x y then x :: y :: ys else y :: insertLe le x ys

/-- Insertion sort; models Python `sorted` (stable, and on the duplicate
free lists used here any correct sort agrees with it). -/
def sortLe {α : Type} (le : α → α → Bool) : List α → List α
  | [] => []
  | x :: xs => insertLe le x (sortLe le xs)

/-- Python `', '.join(words)` on character-list words, as a `String`. -/
def joinCommaSpace (ws : List Line) : String :=
  String.mk (List.intercalate (str ", ") ws)

/-- A single apostrophe, built by code point to keep it out of string
literals. -/
def apos : String := String.mk [Char.ofNat 39]

/-- Model of the ad-hoc change dictionaries built by the universal
analyzer.  `old_values` / `new_values` are present only on the
pattern-based change records and default to `[]` elsewhere. -/
structure ChangeRecord where
  type_ : String
  description : String
  old_content : String
  new_content : String
  impact : String
  change_category : String
  old_values : List String := []
  new_values : List String := []
deriving DecidableEq, Inhabited

/-- Model of the structural-shift dictionaries built by
`_analyze_structural_shifts_simple`. -/
structure StructuralShift where
  type_ : String
  description : String
  content : String
  old_position : ℕ
  new_position : ℕ
  shift_distance : ℕ
  impact : String
  change_category : String
deriving DecidableEq, Inhabited

/-- Model of `UniversalFileDiffAnalyzer._create_simple_change`. -/
def createSimpleChange (oldLine newLine : Line) (changeType : String) : ChangeRecord :=
  if changeType = "line_addition" then
    { type_ := "line_addition"
      description := "Line added: " ++ String.mk (pyStrip newLine)
      old_content := ""
      new_content := String.mk newLine
      impact := "minor"
      change_category := "content_addition" }
  else if changeType = "line_deletion" then
    { type_ := "line_deletion"
      description := "Line removed: " ++ String.mk (pyStrip oldLine)
      old_content := String.mk oldLine
      new_content := ""
      impact := "minor"
      change_category := "content_deletion" }
  else
    { type_ := "content_modification"
      description := "Content changed from " ++ apos ++ String.mk (pyStrip oldLine) ++
        apos ++ " to " ++ apos ++ String.mk (pyStrip newLine) ++ apos
      old_content := String.mk oldLine
      new_content := String.mk newLine
      impact := "moderate"
      change_category := "content_modification" }

/-- The word list `_basic_word_analysis` derives from a file:
`content.lower().split()`, as a set (modelled by deduplication). -/
def basicWords (content : Line) : List Line :=
  (pySplitWs (pyLower content)).dedup

/-- Model of `UniversalFileDiffAnalyzer._basic_word_analysis`, producing
the `real_changes` list: at most one `words_added` and one
`words_removed` record. -/
def basicWordChanges (f1 f2 : FileInfo) : List ChangeRecord :=
  let words1 := basicWords f1.content
  let words2 := basicWords f2.content
  let addedWords := sortLe wordLe (words2.filter (fun w => decide (w ∉ words1)))
  let removedWords := sortLe wordLe (words1.filter (fun w => decide (w ∉ words2)))
  (if addedWords ≠ [] then
    [{ type_ := "words_added"
       description := "Added " ++ toString addedWords.length ++ " new words"
       old_content := ""
       new_content := joinCommaSpace (addedWords.take 10) ++
         (if addedWords.length > 10 then "..." else "")
       impact := "moderate"
       change_category := "content_addition" }]
   else []) ++
  (if removedWords ≠ [] then
    [{ type_ := "words_removed"
       description := "Removed " ++ toString removedWords.length ++ " words"
       old_content := joinCommaSpace (removedWords.take 10) ++
         (if removedWords.length > 10 then "..." else "")
       new_content := ""
       impact := "moderate"
       change_category := "content_deletion" }]
   else [])

/-- Numeric value of a list of ASCII digits (most significant first). -/
def digitsVal (ds : List Char) : ℕ :=
  ds.foldl (fun acc c => acc * 10 + (c.toNat - 48)) 0

/-- Model of Python `float()` on the tokens the `numbers` pattern
`\b\d+(?:\.\d+)?\b` can produce: an unsigned decimal literal.  Any other
shape is a parse failure (`ValueError`), modelled as `none`. -/
def parseDecimal (w : Line) : Option ℚ :=
  let ip := w.takeWhile Char.isDigit
  let rest := w.drop ip.length
  if ip = [] then none
  else
    match rest with
    | [] => some (digitsVal ip : ℚ)
    | '.' :: frac =>
      if frac ≠ [] ∧ frac.all Char.isDigit then
        some (qAdd (digitsVal ip : ℚ)
          (Rat.divInt (digitsVal frac : ℤ) ((10 ^ frac.length : ℕ) : ℤ)))
      else none
    | _ => none

/-- The per-pair value `abs((new - old) / old) if old != 0 else
float('inf')` from `_assess_numeric_impact`; `none` stands for the float
infinity. -/
def relChange (o n : ℚ) : Option ℚ :=
  if o ≠ 0 then some |qDiv (qSub n o) o| else none

/-- Maximum of two relative changes, with `none` (infinity) absorbing. -/
def maxRel : Option ℚ → Option ℚ → Option ℚ
  | none, _ => none
  | _, none => none
  | some x, some y => some (max x y)

/-- Strict comparison of a relative change against a finite bound;
infinity exceeds every bound. -/
def relGt (m : Option ℚ) (b : ℚ) : Bool :=
  match m with
  | none => true
  | some q => decide (q > b)

/-- Model of `UniversalFileDiffAnalyzer._assess_numeric_impact`.  The
`except (ValueError, ZeroDivisionError)` branch is reachable from a
failed `float()` parse and from `max()` over an empty sequence; division
by zero is pre-empted by the conditional expression, which substitutes
`float('inf')` (modelled as `none`). -/
def assessNumericImpact (oldNumbers newNumbers : List Line) : String :=
  match oldNumbers.mapM parseDecimal, newNumbers.mapM parseDecimal with
  | some oldVals, some newVals =>
    if oldVals.length ≠ newVals.length then "moderate"
    else
      match (oldVals.zip newVals).map (fun p => relChange p.1 p.2) with
      | [] => "moderate"
      | c :: cs =>
        let maxChange := cs.foldl maxRel c
        if relGt maxChange 1 then "major"
        else if relGt maxChange (mkRat 1 10) then "moderate"
        else "minor"
  | _, _ => "moderate"

/-- Matching of the current character list against a literal pattern
(helper for `replaceAll`). -/
def startsWithSub : Line → Line → Bool
  | [], _ => true
  | _ :: _, [] => false
  | a :: as, b :: bs => a = b && startsWithSub as bs

/-- Fuelled worker for `replaceAll`. -/
def replaceAllAux (sub : Line) : ℕ → Line → Line
  | 0, _ => []
  | _ + 1, [] => []
  | fuel + 1, c :: rest =>
    if sub ≠ [] ∧ startsWithSub sub (c :: rest) then
      replaceAllAux sub fuel ((c :: rest).drop sub.length)
    else c :: replaceAllAux sub fuel rest

/-- Python `s.replace(sub, '')`: delete every (non-overlapping,
left-to-right) occurrence of `sub`. -/
def replaceAll (sub s : Line) : Line := replaceAllAux sub s.length s

/-- Python `str.split(sep)` for a one-character separator: split at every
occurrence, keeping empty pieces. -/
def splitOnCharKeep (sep : Char) : List Char → List Line
  | [] => [[]]
  | c :: rest =>
    if c = sep then [] :: splitOnCharKeep sep rest
    else
      match splitOnCharKeep sep rest with
      | [] => [[c]]
      | w :: ws => (c :: w) :: ws

/-- Python `str.isdigit()` (ASCII digits). -/
def pyIsDigit (w : Line) : Bool := decide (w ≠ []) && w.all Char.isDigit

/-- The version-component list of `_assess_version_impact`: strip the
literal prefixes (`replace` deletes all occurrences, in the source order
`v`, `version`, `rev`, `revision` — after the first all `v`s are gone, so
the later replacements are no-ops), strip whitespace, split on dots. -/
def versionParts (v : Line) : List Line :=
  splitOnCharKeep '.'
    (pyStrip (replaceAll (str "revision")
      (replaceAll (str "rev") (replaceAll (str "version") (replaceAll (str "v") v)))))

/-- The loop body of `_assess_version_impact` over the zipped version
pairs, with its early returns. -/
def versionLoop : List (Line × Line) → String
  | [] => "minor"
  | (old, new) :: rest =>
    let oldParts := versionParts old
    let newParts := versionParts new
    if oldParts.length ≥ 1 ∧ newParts.length ≥ 1 then
      let oldMajor := if pyIsDigit (oldParts.headD []) then digitsVal (oldParts.headD []) else 0
      let newMajor := if pyIsDigit (newParts.headD []) then digitsVal (newParts.headD []) else 0
      if newMajor > oldMajor then "major"
      else if oldParts.length ≥ 2 ∧ newParts.length ≥ 2 then
        let oldMinor := if pyIsDigit (oldParts.getD 1 []) then digitsVal (oldParts.getD 1 []) else 0
        let newMinor := if pyIsDigit (newParts.getD 1 []) then digitsVal (newParts.getD 1 []) else 0
        if newMinor > oldMinor then "moderate" else versionLoop rest
      else versionLoop rest
    else versionLoop rest

/-- Model of `UniversalFileDiffAnalyzer._assess_version_impact`.  The
`except (ValueError, IndexError)` guard in the source is unreachable:
`split` always returns a non-empty list and `int` is only applied to
digit strings. -/
def assessVersionImpact (oldVersions newVersions : List Line) : String :=
  versionLoop (oldVersions.zip newVersions)

/-- Model of `_is_numbered_item`: the regex `^\d+[\.\)]\s+`. -/
def isNumberedItem (line : Line) : Bool :=
  let ds := line.takeWhile Char.isDigit
  let rest := line.drop ds.length
  decide (ds ≠ []) &&
    (match rest with
     | c :: d :: _ => (c = '.' || c = ')') && isSpaceChar d
     | _ => false)

/-- Model of `_extract_number`: the leading integer of a numbered item
(`None` when the numbered-item regex does not match). -/
def extractNumber (line : Line) : Option ℕ :=
  if isNumberedItem line then some (digitsVal (line.takeWhile Char.isDigit)) else none

/-- Model of `_is_bullet_item`: the regex `^[\-\*\+]\s+`. -/
def isBulletItem (line : Line) : Bool :=
  match line with
  | c :: d :: _ => (c = '-' || c = '*' || c = '+') && isSpaceChar d
  | _ => false

/-- Model of `UniversalFileDiffAnalyzer._analyze_general_changes`.  Note
the source function always returns a record (its final branch builds a
generic `content_modification` with category `content`). -/
def analyzeGeneralChanges (oldLine newLine : Line) : ChangeRecord :=
  if isNumberedItem oldLine ∧ isNumberedItem newLine ∧
      extractNumber oldLine ≠ extractNumber newLine then
    { type_ := "numbering_update"
      description := "Numbering changed from " ++
        toString ((extractNumber oldLine).getD 0) ++ " to " ++
        toString ((extractNumber newLine).getD 0)
      old_content := String.mk oldLine
      new_content := String.mk newLine
      impact := "none"
      change_category := "formatting" }
  else if isBulletItem oldLine ∧ isBulletItem newLine then
    { type_ := "list_item_change"
      description := "List item changed"
      old_content := String.mk oldLine
      new_content := String.mk newLine
      impact := "minor"
      change_category := "content" }
  else
    { type_ := "content_modification"
      description := "Line content modified"
      old_content := String.mk oldLine
      new_content := String.mk newLine
      impact := "moderate"
      change_category := "content" }

/-- Word-boundary test for the position after a match: end of input or a
non-word character. -/
def boundaryAfter : List Char → Bool
  | [] => true
  | c :: _ => !isWordChar c

/-- Fuelled scanner for `re.findall` with the `numbers` pattern
`\b\d+(?:\.\d+)?\b`: at each word boundary take a maximal digit run, an
optional fractional part, and require a word boundary after the match
(falling back to the bare integer part when only the longer candidate
fails its trailing boundary). -/
def findNumbersAux : ℕ → Bool → List Char → List Line
  | 0, _, _ => []
  | _ + 1, _, [] => []
  | fuel + 1, atB, c :: rest =>
    if atB && c.isDigit then
      let ds := (c :: rest).takeWhile Char.isDigit
      let afterDs := (c :: rest).drop ds.length
      match afterDs with
      | '.' :: t =>
        let fd := t.takeWhile Char.isDigit
        let afterFd := t.drop fd.length
        if fd ≠ [] ∧ boundaryAfter afterFd = true then
          (ds ++ '.' :: fd) :: findNumbersAux fuel false afterFd
        else
          ds :: findNumbersAux fuel false afterDs
      | _ =>
        if boundaryAfter afterDs then ds :: findNumbersAux fuel false afterDs
        else findNumbersAux fuel false rest
    else findNumbersAux fuel (!isWordChar c) rest

/-- Model of `self.patterns['numbers'].findall`. -/
def findNumbers (s : Line) : List Line := findNumbersAux s.length true s

/-- Characters allowed in the trailing suffix group of the `versions`
pattern. -/
def isVersionSuffixChar (c : Char) : Bool := c.isAlphanum || c = '-'

/-- Simplified model of `self.patterns['versions'].findall` (pattern
`\b(?:v|version|rev|revision)?\s*\d+(?:\.\d+)*(?:[a-zA-Z0-9-]*)\b`,
case-insensitive): an optional prefix keyword, optional whitespace, a
dotted digit sequence and an alphanumeric-dash suffix trimmed back to a
word boundary.  No theorem below depends on this function. -/
def findVersionsAux : ℕ → Bool → List Char → List Line
  | 0, _, _ => []
  | _ + 1, _, [] => []
  | fuel + 1, atB, c :: rest =>
    let s := c :: rest
    let tryFrom : Line → Line → Option (Line × Line) := fun pre body =>
      let sp := body.takeWhile isSpaceChar
      let ds := (body.drop sp.length).takeWhile Char.isDigit
      if ds = [] then none
      else
        let afterDs := (body.drop sp.length).drop ds.length
        let rec dotted : ℕ → Line → Line × Line := fun
          | 0, r => ([], r)
          | f + 1, r =>
            match r with
            | '.' :: t =>
              let fd := t.takeWhile Char.isDigit
              if fd = [] then ([], r)
              else
                let (more, r2) := dotted f (t.drop fd.length)
                ('.' :: fd ++ more, r2)
            | r => ([], r)
        let (dots, afterDots) := dotted fuel afterDs
        let suf := afterDots.takeWhile isVersionSuffixChar
        let sufTrim := (suf.reverse.dropWhile (fun ch => ch = '-')).reverse
        some (pre ++ sp ++ ds ++ dots ++ sufTrim,
              afterDots.drop sufTrim.length)
    if atB then
      let lowered := pyLower s
      let attempt :=
        if startsWithSub (str "version") lowered then
          tryFrom (s.take 7) (s.drop 7) <|> tryFrom (s.take 1) (s.drop 1)
        else if startsWithSub (str "revision") lowered then
          tryFrom (s.take 8) (s.drop 8) <|> tryFrom (s.take 3) (s.drop 3)
        else if startsWithSub (str "rev") lowered then
          tryFrom (s.take 3) (s.drop 3)
        else if startsWithSub (str "v") lowered then
          tryFrom (s.take 1) (s.drop 1)
        else tryFrom [] s
      match attempt with
      | some (m, after) => m :: findVersionsAux fuel false after
      | none => findVersionsAux fuel (!isWordChar c) rest
    else findVersionsAux fuel (!isWordChar c) rest

/-- Model of `self.patterns['versions'].findall` (see
`findVersionsAux`). -/
def findVersions (s : Line) : List Line := findVersionsAux s.length true s

/-- Simplified model of `self.patterns['dates'].findall`: the numeric
alternative (one to four digits, a dash or slash, one or two digits, a
dash or slash, one to four digits, inside word boundaries).  The textual
`day Month year` alternative is not exercised by anything below and is
omitted. -/
def findDatesAux : ℕ → Bool → List Char → List Line
  | 0, _, _ => []
  | _ + 1, _, [] => []
  | fuel + 1, atB, c :: rest =>
    let s := c :: rest
    let attempt : Option (Line × Line) :=
      let d1 := s.takeWhile Char.isDigit
      if d1 = [] ∨ d1.length > 4 then none
      else
        match s.drop d1.length with
        | s1 :: r1 =>
          if s1 = '-' ∨ s1 = '/' then
            let d2 := r1.takeWhile Char.isDigit
            if d2 = [] ∨ d2.length > 2 then none
            else
              match r1.drop d2.length with
              | s2 :: r2 =>
                if s2 = '-' ∨ s2 = '/' then
                  let d3 := r2.takeWhile Char.isDigit
                  if d3 = [] ∨ d3.length > 4 then none
                  else
                    let after := r2.drop d3.length
                    if boundaryAfter after then
                      some (d1 ++ s1 :: d2 ++ s2 :: d3, after)
                    else none
                else none
              | [] => none
          else none
        | [] => none
    if atB && c.isDigit then
      match attempt with
      | some (m, after) => m :: findDatesAux fuel false after
      | none => findDatesAux fuel false rest
    else findDatesAux fuel (!isWordChar c) rest

/-- Model of `self.patterns['dates'].findall` (see `findDatesAux`). -/
def findDates (s : Line) : List Line := findDatesAux s.length true s

/-- Characters accepted in the body of a URL by this simplified model of
the `urls` pattern. -/
def isUrlChar (c : Char) : Bool :=
  c.isAlphanum || c = '-' || c = '.' || c = '/' || c = '_' || c = ':' ||
    c = '?' || c = '&' || c = '=' || c = '%' || c = '#'

/-- Simplified model of `self.patterns['urls'].findall`
(`https?://...` with host, optional path, query and fragment).  No
theorem below depends on this function. -/
def findUrlsAux : ℕ → List Char → List Line
  | 0, _ => []
  | _ + 1, [] => []
  | fuel + 1, c :: rest =>
    let s := c :: rest
    let attempt : Option (Line × Line) :=
      let pre := if startsWithSub (str "https://") s then some 8
                 else if startsWithSub (str "http://") s then some 7
                 else none
      match pre with
      | some k =>
        let body := (s.drop k).takeWhile isUrlChar
        if body = [] then none
        else some (s.take k ++ body, (s.drop k).drop body.length)
      | none => none
    match attempt with
    | some (m, after) => m :: findUrlsAux fuel after
    | none => findUrlsAux fuel rest

/-- Model of `self.patterns['urls'].findall` (see `findUrlsAux`). -/
def findUrls (s : Line) : List Line := findUrlsAux s.length s

/-- Characters of the local part of an email address
(`[A-Za-z0-9._%+-]`). -/
def isEmailLocalChar (c : Char) : Bool :=
  c.isAlphanum || c = '.' || c = '_' || c = '%' || c = '+' || c = '-'

/-- Characters of the domain part of an email address
(`[A-Za-z0-9.-]`). -/
def isEmailDomainChar (c : Char) : Bool :=
  c.isAlphanum || c = '.' || c = '-'

/-- Simplified model of `self.patterns['emails'].findall`
(`\b[A-Za-z0-9._%+-]+@[A-Za-z0-9.-]+\.[A-Z|a-z]{2,}\b`): a local part, an
`@`, and a domain whose last dot-separated label has at least two
letters.  No theorem below depends on this function. -/
def findEmailsAux : ℕ → Bool → List Char → List Line
  | 0, _, _ => []
  | _ + 1, _, [] => []
  | fuel + 1, atB, c :: rest =>
    let s := c :: rest
    let attempt : Option (Line × Line) :=
      let lp := s.takeWhile isEmailLocalChar
      if lp = [] then none
      else
        match s.drop lp.length with
        | '@' :: r1 =>
          let dom := r1.takeWhile isEmailDomainChar
          let lastLabel := (dom.reverse.takeWhile (fun ch => ch ≠ '.')).reverse
          if dom.length ≥ 3 ∧ lastLabel.length ≥ 2 ∧ lastLabel.all Char.isAlpha ∧
              dom.length > lastLabel.length then
            some (lp ++ '@' :: dom, r1.drop dom.length)
          else none
        | _ => none
    if atB && isEmailLocalChar c then
      match attempt with
      | some (m, after) => m :: findEmailsAux fuel false after
      | none => findEmailsAux fuel (!isWordChar c) rest
    else findEmailsAux fuel (!isWordChar c) rest

/-- Model of `self.patterns['emails'].findall` (see `findEmailsAux`). -/
def findEmails (s : Line) : List Line := findEmailsAux s.length true s

/-- Model of `_create_numeric_change`. -/
def createNumericChange (oldLine newLine : Line) (oldNums newNums : List Line) :
    ChangeRecord :=
  { type_ := "numeric_change"
    description := "Numeric value changed from " ++ joinCommaSpace oldNums ++
      " to " ++ joinCommaSpace newNums
    old_content := String.mk oldLine
    new_content := String.mk newLine
    old_values := oldNums.map String.mk
    new_values := newNums.map String.mk
    impact := assessNumericImpact oldNums newNums
    change_category := "data_modification" }

/-- Model of `_create_version_change`. -/
def createVersionChange (oldLine newLine : Line) (oldVs newVs : List Line) :
    ChangeRecord :=
  { type_ := "version_change"
    description := "Version changed from " ++ joinCommaSpace oldVs ++
      " to " ++ joinCommaSpace newVs
    old_content := String.mk oldLine
    new_content := String.mk newLine
    old_values := oldVs.map String.mk
    new_values := newVs.map String.mk
    impact := assessVersionImpact oldVs newVs
    change_category := "version_update" }

/-- Model of `_create_date_change`. -/
def createDateChange (oldLine newLine : Line) (oldDs newDs : List Line) :
    ChangeRecord :=
  { type_ := "date_change"
    description := "Date changed from " ++ joinCommaSpace oldDs ++
      " to " ++ joinCommaSpace newDs
    old_content := String.mk oldLine
    new_content := String.mk newLine
    old_values := oldDs.map String.mk
    new_values := newDs.map String.mk
    impact := "minor"
    change_category := "date_update" }

/-- Model of `_create_url_change`. -/
def createUrlChange (oldLine newLine : Line) (oldUs newUs : List Line) :
    ChangeRecord :=
  { type_ := "url_change"
    description := "URL changed from " ++ joinCommaSpace oldUs ++
      " to " ++ joinCommaSpace newUs
    old_content := String.mk oldLine
    new_content := String.mk newLine
    old_values := oldUs.map String.mk
    new_values := newUs.map String.mk
    impact := "moderate"
    change_category := "url_update" }

/-- Model of `_create_email_change`. -/
def createEmailChange (oldLine newLine : Line) (oldEs newEs : List Line) :
    ChangeRecord :=
  { type_ := "email_change"
    description := "Email changed from " ++ joinCommaSpace oldEs ++
      " to " ++ joinCommaSpace newEs
    old_content := String.mk oldLine
    new_content := String.mk newLine
    old_values := oldEs.map String.mk
    new_values := newEs.map String.mk
    impact := "moderate"
    change_category := "contact_update" }

/-- Model of `UniversalFileDiffAnalyzer._detect_pattern_changes`: run the
recognizers in priority order (numbers, versions, dates, urls, emails); a
recognizer fires when both lines have at least one match and the match
lists differ. -/
def detectPatternChanges (oldLine newLine : Line) : Option ChangeRecord :=
  let numbersOld := findNumbers oldLine
  let numbersNew := findNumbers newLine
  if numbersOld ≠ [] ∧ numbersNew ≠ [] ∧ numbersOld ≠ numbersNew then
    some (createNumericChange oldLine newLine numbersOld numbersNew)
  else
    let versionsOld := findVersions oldLine
    let versionsNew := findVersions newLine
    if versionsOld ≠ [] ∧ versionsNew ≠ [] ∧ versionsOld ≠ versionsNew then
      some (createVersionChange oldLine newLine versionsOld versionsNew)
    else
      let datesOld := findDates oldLine
      let datesNew := findDates newLine
      if datesOld ≠ [] ∧ datesNew ≠ [] ∧ datesOld ≠ datesNew then
        some (createDateChange oldLine newLine datesOld datesNew)
      else
        let urlsOld := findUrls oldLine
        let urlsNew := findUrls newLine
        if urlsOld ≠ [] ∧ urlsNew ≠ [] ∧ urlsOld ≠ urlsNew then
          some (createUrlChange oldLine newLine urlsOld urlsNew)
        else
          let emailsOld := findEmails oldLine
          let emailsNew := findEmails newLine
          if emailsOld ≠ [] ∧ emailsNew ≠ [] ∧ emailsOld ≠ emailsNew then
            some (createEmailChange oldLine newLine emailsOld emailsNew)
          else none

/-- Model of `UniversalFileDiffAnalyzer._analyze_universal_line_change`:
strip both lines; skip (return `none`) when either is empty or longer
than 200 characters; otherwise try the pattern recognizers and fall back
to `_analyze_general_changes` (which always returns a record, so the
trailing `return None` of the source is unreachable). -/
def analyzeUniversalLineChange (oldLine newLine : Line) : Option ChangeRecord :=
  let o := pyStrip oldLine
  let n := pyStrip newLine
  if o = [] ∨ n = [] then none
  else if o.length > 200 ∨ n.length > 200 then none
  else
    match detectPatternChanges o n with
    | some c => some c
    | none => some (analyzeGeneralChanges o n)

/-- Matching-block candidate of `difflib.SequenceMatcher`
`find_longest_match` (also used as the `(i, j, size)` triples of
`get_matching_blocks`). -/
structure BestState where
  besti : ℕ
  bestj : ℕ
  bestsize : ℕ
deriving DecidableEq, Inhabited

/-- One outer-loop iteration (`for i in range(alo, ahi)`) of
`find_longest_match`: scan the window `[blo, bhi)` for positions where
`b[j] == a[i]` (the `b2j` table restricted to the window, in ascending
order), extending diagonal run lengths from the previous row (`j2len`)
and tracking the earliest longest block. -/
def flmRow (a b : List Line) (blo bhi : ℕ) (j2len : ℕ → ℕ) (i : ℕ)
    (best : BestState) : BestState × (ℕ → ℕ) :=
  let ai := a.getD i []
  (List.range' blo (bhi - blo)).foldl
    (fun st j =>
      if b.getD j [] = ai then
        let k := (if j = 0 then 0 else j2len (j - 1)) + 1
        let bst := if k > st.1.bestsize then ⟨i + 1 - k, j + 1 - k, k⟩ else st.1
        (bst, fun m => if m = j then k else st.2 m)
      else st)
    (best, fun _ => 0)

/-- The dynamic-programming core of `find_longest_match` over the window
`a[alo:ahi]`, `b[blo:bhi]`. -/
def flmLoop (a b : List Line) (alo ahi blo bhi : ℕ) : BestState :=
  ((List.range' alo (ahi - alo)).foldl
    (fun st i => flmRow a b blo bhi st.2 i st.1)
    ((⟨alo, blo, 0⟩ : BestState), fun _ => (0 : ℕ))).1

/-- Fuelled worker for `extendLower`; each iteration decreases `besti`,
so `besti` itself bounds the iteration count. -/
def extendLowerAux (a b : List Line) (alo blo : ℕ) : ℕ → BestState → BestState
  | 0, st => st
  | fuel + 1, st =>
    if alo < st.besti ∧ blo < st.bestj ∧
        a.getD (st.besti - 1) [] = b.getD (st.bestj - 1) [] then
      extendLowerAux a b alo blo fuel ⟨st.besti - 1, st.bestj - 1, st.bestsize + 1⟩
    else st

/-- The first `while` extension of `find_longest_match`: grow the block
downwards while the preceding elements match.  (With `autojunk=False` and
no junk predicate the junk set is empty, so the junk-directed extension
loops of the source never fire and are omitted; this loop itself cannot
extend a maximal block but is kept for fidelity.) -/
def extendLower (a b : List Line) (alo blo : ℕ) (st : BestState) : BestState :=
  extendLowerAux a b alo blo st.besti st

/-- Fuelled worker for `extendUpper`; each iteration increases
`bestsize` while `besti + bestsize < ahi`, so `ahi - (besti + bestsize)`
bounds the iteration count. -/
def extendUpperAux (a b : List Line) (ahi bhi : ℕ) : ℕ → BestState → BestState
  | 0, st => st
  | fuel + 1, st =>
    if st.besti + st.bestsize < ahi ∧ st.bestj + st.bestsize < bhi ∧
        a.getD (st.besti + st.bestsize) [] = b.getD (st.bestj + st.bestsize) [] then
      extendUpperAux a b ahi bhi fuel ⟨st.besti, st.bestj, st.bestsize + 1⟩
    else st

/-- The second `while` extension of `find_longest_match`: grow the block
upwards while the following elements match. -/
def extendUpper (a b : List Line) (ahi bhi : ℕ) (st : BestState) : BestState :=
  extendUpperAux a b ahi bhi (ahi - (st.besti + st.bestsize)) st

/-- Model of `SequenceMatcher.find_longest_match` (no junk, as the
analyzer constructs it with `SequenceMatcher(None, ..., autojunk=False)`). -/
def findLongestMatch (a b : List Line) (alo ahi blo bhi : ℕ) : BestState :=
  extendUpper a b ahi bhi (extendLower a b alo blo (flmLoop a b alo ahi blo bhi))

/-- The recursive block collection of `get_matching_blocks`.  The source
drains an explicit queue and sorts at the end; this recursion emits the
same blocks directly in sorted order (left subwindow, middle block, right
subwindow).  The fuel exceeds the recursion depth for every input passed
below. -/
def matchingBlocksAux (a b : List Line) : ℕ → ℕ → ℕ → ℕ → ℕ → List BestState
  | 0, _, _, _, _ => []
  | fuel + 1, alo, ahi, blo, bhi =>
    let st := findLongestMatch a b alo ahi blo bhi
    if st.bestsize = 0 then []
    else
      (if alo < st.besti ∧ blo < st.bestj then
        matchingBlocksAux a b fuel alo st.besti blo st.bestj
      else []) ++
      [st] ++
      (if st.besti + st.bestsize < ahi ∧ st.bestj + st.bestsize < bhi then
        matchingBlocksAux a b fuel (st.besti + st.bestsize) ahi
          (st.bestj + st.bestsize) bhi
      else [])

/-- One step of the adjacent-block merge at the end of
`get_matching_blocks`. -/
def mergeStep (st : BestState × List BestState) (blk : BestState) :
    BestState × List BestState :=
  let (c, acc) := st
  if c.besti + c.bestsize = blk.besti ∧ c.bestj + c.bestsize = blk.bestj then
    (⟨c.besti, c.bestj, c.bestsize + blk.bestsize⟩, acc)
  else
    (blk, if c.bestsize ≠ 0 then acc ++ [c] else acc)

/-- Model of `SequenceMatcher.get_matching_blocks`: collect maximal
blocks, merge adjacent ones, and append the `(len(a), len(b), 0)`
sentinel. -/
def getMatchingBlocks (a b : List Line) : List BestState :=
  let raw := matchingBlocksAux a b (a.length + b.length + 1) 0 a.length 0 b.length
  let fin := raw.foldl mergeStep ((⟨0, 0, 0⟩ : BestState), [])
  (if fin.1.bestsize ≠ 0 then fin.2 ++ [fin.1] else fin.2) ++
    [⟨a.length, b.length, 0⟩]

/-- An alignment opcode `(tag, i1, i2, j1, j2)` as produced by
`SequenceMatcher.get_opcodes`. -/
structure Opcode where
  tag : String
  i1 : ℕ
  i2 : ℕ
  j1 : ℕ
  j2 : ℕ
deriving DecidableEq, Inhabited

/-- Model of `SequenceMatcher.get_opcodes`: walk the matching blocks,
emitting `replace` / `delete` / `insert` for the gap before each block
and `equal` for the block itself. -/
def getOpcodes (a b : List Line) : List Opcode :=
  ((getMatchingBlocks a b).foldl
    (fun (st : ℕ × ℕ × List Opcode) blk =>
      let (i, j, ans) := st
      let ans :=
        if i < blk.besti ∧ j < blk.bestj then
          ans ++ [⟨"replace", i, blk.besti, j, blk.bestj⟩]
        else if i < blk.besti then
          ans ++ [⟨"delete", i, blk.besti, j, blk.bestj⟩]
        else if j < blk.bestj then
          ans ++ [⟨"insert", i, blk.besti, j, blk.bestj⟩]
        else ans
      let i2 := blk.besti + blk.bestsize
      let j2 := blk.bestj + blk.bestsize
      let ans :=
        if blk.bestsize ≠ 0 then ans ++ [⟨"equal", blk.besti, i2, blk.bestj, j2⟩]
        else ans
      (i2, j2, ans))
    ((0 : ℕ), (0 : ℕ), ([] : List Opcode))).2.2

/-- The records `_detailed_line_analysis` appends to `real_changes` for a
single opcode.  The source loop appends at most one record per visited
line (or line pair), which the `filterMap`s reproduce; difflib only emits
the four listed tags, so the final branch is unreachable. -/
def processOpcode (lines1 lines2 : List Line) (op : Opcode) : List ChangeRecord :=
  if op.tag = "equal" then []
  else if op.tag = "insert" then
    (List.range' op.j1 (op.j2 - op.j1)).filterMap (fun j =>
      if pyStrip (lines2.getD j []) ≠ [] then
        some (createSimpleChange [] (lines2.getD j []) "line_addition")
      else none)
  else if op.tag = "delete" then
    (List.range' op.i1 (op.i2 - op.i1)).filterMap (fun i =>
      if pyStrip (lines1.getD i []) ≠ [] then
        some (createSimpleChange (lines1.getD i []) [] "line_deletion")
      else none)
  else if op.tag = "replace" then
    let commonLen := min (op.i2 - op.i1) (op.j2 - op.j1)
    ((List.range commonLen).filterMap (fun off =>
      let oldLine := lines1.getD (op.i1 + off) []
      let newLine := lines2.getD (op.j1 + off) []
      if pyStrip oldLine ≠ pyStrip newLine then
        some ((analyzeUniversalLineChange oldLine newLine).getD
          (createSimpleChange oldLine newLine "content_modification"))
      else none)) ++
    (if op.i2 - op.i1 > commonLen then
      (List.range' (op.i1 + commonLen) (op.i2 - (op.i1 + commonLen))).filterMap
        (fun i =>
          if pyStrip (lines1.getD i []) ≠ [] then
            some (createSimpleChange (lines1.getD i []) [] "line_deletion")
          else none)
    else []) ++
    (if op.j2 - op.j1 > commonLen then
      (List.range' (op.j1 + commonLen) (op.j2 - (op.j1 + commonLen))).filterMap
        (fun j =>
          if pyStrip (lines2.getD j []) ≠ [] then
            some (createSimpleChange [] (lines2.getD j []) "line_addition")
          else none)
    else [])
  else []

/-- Model of the `universal_analysis` payload dictionary (the
`similarity_percentage` entry of this payload is a literal string in the
source). -/
structure UniversalAnalysis where
  real_changes : List ChangeRecord
  structural_changes : List StructuralShift
  total_changes : ℕ
  analysis_method : String
  similarity_percentage : String
deriving DecidableEq, Inhabited

/-- Model of `UniversalFileDiffAnalyzer._detailed_line_analysis`: split
both contents into lines, diff them with `SequenceMatcher`, and classify
every non-equal opcode.  The local `structural_changes` list is created
empty and never appended to — `_analyze_structural_shifts_simple` is
never invoked — so that field is always `[]`. -/
def detailedLineAnalysis (file1 file2 : FileInfo) : UniversalAnalysis :=
  let lines1 := splitOnNl file1.content
  let lines2 := splitOnNl file2.content
  let realChanges := (getOpcodes lines1 lines2).flatMap (processOpcode lines1 lines2)
  { real_changes := realChanges
    structural_changes := []
    total_changes := realChanges.length + 0
    analysis_method := "detailed_line_diff"
    similarity_percentage := "95%+ (detailed analysis)" }

/-- Model of `UniversalFileDiffAnalyzer._basic_word_analysis`. -/
def basicWordAnalysis (f1 f2 : FileInfo) : UniversalAnalysis :=
  let realChanges := basicWordChanges f1 f2
  { real_changes := realChanges
    structural_changes := []
    total_changes := realChanges.length
    analysis_method := "basic_word_diff"
    similarity_percentage := "less than 95% (basic analysis)" }

/-- Model of `UniversalFileDiffAnalyzer._analyze_structural_shifts_simple`.
For each non-blank line of `lines1`, find the first line of `lines2` with
the same trimmed content and report a shift when the absolute position
difference exceeds 1.  The `insertions` / `deletions` parameters are
unused, as in the source. -/
def analyzeStructuralShiftsSimple (lines1 lines2 : List Line)
    (_insertions _deletions : List (ℕ × ℕ)) : List StructuralShift :=
  lines1.enum.filterMap (fun (p : ℕ × Line) =>
    let i : ℕ := p.1
    let line1 : Line := p.2
    if pyStrip line1 = [] then none
    else
      match lines2.findIdx? (fun line2 => decide (pyStrip line2 = pyStrip line1)) with
      | none => none
      | some j =>
        let shiftDistance := ((j : ℤ) - (i : ℤ)).natAbs
        if shiftDistance > 1 then
          some { type_ := "structural_shift"
                 description := "Line shifted from position " ++ toString (i + 1) ++
                   " to " ++ toString (j + 1) ++ " due to insertions/deletions"
                 content := String.mk (pyStrip line1)
                 old_position := i + 1
                 new_position := j + 1
                 shift_distance := shiftDistance
                 impact := "none"
                 change_category := "formatting" }
        else none)

/-- Model of `_get_universal_assessment`. -/
def getUniversalAssessment (u : UniversalAnalysis) : String :=
  if u.real_changes = [] ∧ u.structural_changes = [] then
    "No significant changes detected"
  else if u.real_changes.length ≤ 2 ∧ u.structural_changes = [] then
    "Minor changes only"
  else if u.real_changes.length > 10 then "Major content changes"
  else "Moderate changes detected"

/-- Model of `_get_universal_change_impact`. -/
def getUniversalChangeImpact (u : UniversalAnalysis) : String :=
  let impacts := u.real_changes.map (fun c => c.impact)
  if "major" ∈ impacts then "major"
  else if "moderate" ∈ impacts then "moderate"
  else "minor"

/-- Model of `_get_change_categories`: the sorted set of categories of
the real changes. -/
def getChangeCategories (u : UniversalAnalysis) : List String :=
  sortLe (fun a b => wordLe a.data b.data)
    ((u.real_changes.map (fun c => c.change_category)).dedup)

/-- Model of the `summary` payload of `universal_analyze`. -/
structure AnalysisSummary where
  real_changes_count : ℕ
  structural_changes_count : ℕ
  overall_assessment : String
  change_impact : String
  change_categories : List String
deriving DecidableEq, Inhabited

/-- Model of the full `universal_analyze` result payload. -/
structure UniversalResult where
  basic_analysis : DifferenceInfo
  universal_analysis : UniversalAnalysis
  summary : AnalysisSummary
deriving DecidableEq, Inhabited

/-- Model of `UniversalFileDiffAnalyzer._perform_universal_analysis`:
with anything other than exactly two files, return the error dictionary;
otherwise use the basic analyzer similarity (the rounded percentage of
`comparison_matrix[0]`, which for two files is their pairwise comparison)
to choose detailed line analysis (at 95.0 or above) or basic word
analysis. -/
def performUniversalAnalysis (cfg : AnalysisConfig) (files : List FileInfo) :
    Except String UniversalAnalysis :=
  if files.length ≠ 2 then
    .error "Exactly 2 files required for universal analysis"
  else
    let file1 := files.getD 0 default
    let file2 := files.getD 1 default
    let similarity := (compareFiles cfg file1 file2).similarity_percentage
    if similarity ≥ 95 then .ok (detailedLineAnalysis file1 file2)
    else .ok (basicWordAnalysis file1 file2)

/-- Model of `UniversalFileDiffAnalyzer.universal_analyze`.  Fewer than
two registered files raises `ValueError` before any analysis.  Otherwise
the basic analysis runs; if `_perform_universal_analysis` returned its
error dictionary, assembling the summary evaluates
`universal_analysis["real_changes"]`, which raises `KeyError`. -/
def universalAnalyze (cfg : AnalysisConfig) (files : List FileInfo) :
    Except PyErr UniversalResult :=
  if files.length < 2 then
    .error (.valueError "Minimum 2 files required for comparison")
  else
    match analyze cfg files with
    | .error e => .error e
    | .ok basicResult =>
      let di := basicResult.comparison_matrix.getD 0 default
      match performUniversalAnalysis cfg files with
      | .error _ => .error (.keyError "real_changes")
      | .ok ua =>
        .ok { basic_analysis := di
              universal_analysis := ua
              summary :=
                { real_changes_count := ua.real_changes.length
                  structural_changes_count := ua.structural_changes.length
                  overall_assessment := getUniversalAssessment ua
                  change_impact := getUniversalChangeImpact ua
                  change_categories := getChangeCategories ua } }

/-- Model of the block dictionaries built by `_segment_blocks` (the
fields consulted by the matcher). -/
structure Block where
  btype : String
  content : Line
deriving DecidableEq, Inhabited

/-- Fuelled scanner for `re.findall(r'\w+', s)`: the maximal runs of
word characters. -/
def wordRunsAux : ℕ → List Char → List Line
  | 0, _ => []
  | _ + 1, [] => []
  | fuel + 1, c :: rest =>
    if isWordChar c then
      let run := (c :: rest).takeWhile isWordChar
      run :: wordRunsAux fuel ((c :: rest).drop run.length)
    else wordRunsAux fuel rest

/-- Model of `re.findall(r'\w+', s)`. -/
def wordRuns (s : List Char) : List Line := wordRunsAux s.length s

/-- Model of `UniversalFileDiffAnalyzer._calculate_block_similarity`:
Jaccard similarity of the case-folded word-token sets, 0 when either set
is empty. -/
def calculateBlockSimilarity (b1 b2 : Block) : ℚ :=
  let words1 := (wordRuns (pyLower b1.content)).toFinset
  let words2 := (wordRuns (pyLower b2.content)).toFinset
  if words1 = ∅ ∨ words2 = ∅ then 0
  else qDiv ((words1 ∩ words2).card : ℚ) ((words1 ∪ words2).card : ℚ)

/-- The inner loop of `_greedy_match_by_signature` over the candidate
blocks of the second document, carrying the current `(best_match,
best_similarity)` state (initially `(-1, 0)`, modelled as `(none, 0)`). -/
def bestLoop (b1 : Block) (used : List ℕ) : ℕ → List Block → Option ℕ × ℚ →
    Option ℕ × ℚ
  | _, [], st => st
  | j, b2 :: rest, st =>
    if j ∈ used then bestLoop b1 used (j + 1) rest st
    else
      let s := calculateBlockSimilarity b1 b2
      if s > st.2 ∧ s ≥ mkRat 3 5 then bestLoop b1 used (j + 1) rest (some j, s)
      else bestLoop b1 used (j + 1) rest st

/-- The candidate `_greedy_match_by_signature` selects for one block of
the first document, given the already-used indices of the second. -/
def bestCandidate (b1 : Block) (blocks2 : List Block) (used : List ℕ) : Option ℕ :=
  (bestLoop b1 used 0 blocks2 (none, 0)).1

/-- The outer loop of `_greedy_match_by_signature`; the insertion-ordered
`matches` dictionary is modelled as a list of `(i, j)` pairs. -/
def greedyAux (blocks2 : List Block) : ℕ → List Block → List (ℕ × ℕ) →
    List (ℕ × ℕ)
  | _, [], m => m
  | i, b :: rest, m =>
    match bestCandidate b blocks2 (m.map Prod.snd) with
    | some j => greedyAux blocks2 (i + 1) rest (m ++ [(i, j)])
    | none => greedyAux blocks2 (i + 1) rest m

/-- Model of `UniversalFileDiffAnalyzer._greedy_match_by_signature`. -/
def greedyMatchBySignature (blocks1 blocks2 : List Block) : List (ℕ × ℕ) :=
  greedyAux blocks2 0 blocks1 []

/-!  Concrete documents and configurations used by the theorems. -/

/-- Default configuration (`AnalysisConfig()`). -/
def cfgDef : AnalysisConfig := {}

/-- A text segment with content `"a b"`. -/
def docAB : FileInfo := { name := "file1", file_type := .text_segment, content := str "a b" }

/-- A text segment with content `"b"`. -/
def docB : FileInfo := { name := "file2", file_type := .text_segment, content := str "b" }

/-- A configuration whose tolerance sits between the unrounded and the
rounded difference percentage of `docAB` versus `docB`. -/
def cfgTol : AnalysisConfig := { tolerance_percentage := mkRat 33331 1000 }

/-- The first document of spec Scenario E (a single line reordered by a
gap of three positions). -/
def docRotOld : FileInfo :=
  { name := "old", file_type := .text_segment, content := str "a\nb\nc\nd" }

/-- The second document of spec Scenario E. -/
def docRotNew : FileInfo :=
  { name := "new", file_type := .text_segment, content := str "b\nc\nd\na" }

/-- The first document of spec Scenario D. -/
def docInsOld : FileInfo :=
  { name := "old", file_type := .text_segment, content := str "Line 1\nLine 2" }

/-- The second document of spec Scenario D. -/
def docInsNew : FileInfo :=
  { name := "new", file_type := .text_segment, content := str "Line 1\nNew line\nLine 2" }

/-!  Theorems settling the claims. -/

/-- C10: for every configuration and pair of documents, the unrounded
similarity percentage and unrounded difference percentage of the coarse
comparator sum to exactly 100 (including the both-empty word-set case,
where they are 100 and 0). -/
theorem c10_unrounded_percentages_sum_to_100
    (cfg : AnalysisConfig) (f1 f2 : FileInfo) :
    similarityExact cfg f1 f2 + differenceExact cfg f1 f2 = 100 := by
  have h1 := Finset.card_inter_add_card_sdiff (wordSetsOf cfg f1 f2).1 (wordSetsOf cfg f1 f2).2
  have h2 := Finset.card_inter_add_card_sdiff (wordSetsOf cfg f1 f2).2 (wordSetsOf cfg f1 f2).1
  rw [Finset.inter_comm] at h2
  unfold similarityExact differenceExact
  by_cases h : (wordSetsOf cfg f1 f2).1.card + (wordSetsOf cfg f1 f2).2.card = 0
  · simp [h]
  · simp only [h, if_false]
    have ht : ((((wordSetsOf cfg f1 f2).1.card + (wordSetsOf cfg f1 f2).2.card) : ℕ) : ℚ) ≠ 0 :=
      Nat.cast_ne_zero.mpr h
    have key : (((wordSetsOf cfg f1 f2).1 ∩ (wordSetsOf cfg f1 f2).2).card * 2
        + (((wordSetsOf cfg f1 f2).1 \ (wordSetsOf cfg f1 f2).2).card
          + ((wordSetsOf cfg f1 f2).2 \ (wordSetsOf cfg f1 f2).1).card) : ℕ)
        = (wordSetsOf cfg f1 f2).1.card + (wordSetsOf cfg f1 f2).2.card := by omega
    have keyQ : ((((wordSetsOf cfg f1 f2).1 ∩ (wordSetsOf cfg f1 f2).2).card * 2
        + (((wordSetsOf cfg f1 f2).1 \ (wordSetsOf cfg f1 f2).2).card
          + ((wordSetsOf cfg f1 f2).2 \ (wordSetsOf cfg f1 f2).1).card) : ℕ) : ℚ)
        = (((wordSetsOf cfg f1 f2).1.card + (wordSetsOf cfg f1 f2).2.card : ℕ) : ℚ) :=
      congrArg (fun n : ℕ => (n : ℚ)) key
    rw [qMul_eq, qMul_eq, qDiv_eq, qDiv_eq, div_mul_eq_mul_div, div_mul_eq_mul_div,
        div_add_div_same, div_eq_iff ht]
    push_cast at keyQ ⊢
    linarith [keyQ]

/-- C8 (amended): the `is_significantly_different` flag equals the strict
comparison of the *unrounded* difference percentage against the
tolerance; the rounded `difference_percentage` field stored in the result
can disagree with the flag at rounding boundaries. -/
theorem c8_flag_iff_unrounded_difference_exceeds_tolerance
    (cfg : AnalysisConfig) (f1 f2 : FileInfo) :
    (compareFiles cfg f1 f2).is_significantly_different = true
      ↔ differenceExact cfg f1 f2 > cfg.tolerance_percentage := by
  simp [compareFiles]

/-- C8 (counterexample): for `"a b"` versus `"b"` under tolerance 33.331
the flag is set (the unrounded difference 100/3 exceeds the tolerance),
yet the reported `difference_percentage` 33.33 does not exceed the
tolerance — refuting the claimed equivalence with the result field. -/
theorem c8_counterexample_flag_disagrees_with_rounded_field :
    (compareFiles cfgTol docAB docB).is_significantly_different = true ∧
    ¬((compareFiles cfgTol docAB docB).difference_percentage
        > cfgTol.tolerance_percentage) := by
  decide

/-- C3: with fewer than two files `universal_analyze` raises the
validation `ValueError` before any analysis, but with three files it does
not — the coarse analysis runs and the call fails with a `KeyError`
raised while assembling the summary from the error dictionary that
`_perform_universal_analysis` returned. -/
theorem c3_validation_only_for_fewer_than_two_files :
    universalAnalyze cfgDef []
        = .error (.valueError "Minimum 2 files required for comparison") ∧
    universalAnalyze cfgDef [docAB]
        = .error (.valueError "Minimum 2 files required for comparison") ∧
    universalAnalyze cfgDef [docAB, docB, docRotOld]
        = .error (.keyError "real_changes") := by
  refine ⟨rfl, rfl, ?_⟩
  decide

/-- C1: on Scenario E inputs (similarity 100, detailed line mode, one
line moved by three positions) the analysis output has an *empty*
`structural_changes` list — `_analyze_structural_shifts_simple` is dead
code — although that helper, applied to the two line sequences as the
spec describes, reports exactly the expected single shift with impact
`none` and category `formatting`. -/
theorem c1_structural_shifts_not_reported :
    (universalAnalyze cfgDef [docRotOld, docRotNew]).map (fun r =>
        (r.universal_analysis.analysis_method,
         r.universal_analysis.structural_changes))
      = .ok ("detailed_line_diff", []) ∧
    analyzeStructuralShiftsSimple (splitOnNl docRotOld.content)
        (splitOnNl docRotNew.content) [] []
      = [{ type_ := "structural_shift"
           description := "Line shifted from position 1 to 4 due to insertions/deletions"
           content := "a"
           old_position := 1
           new_position := 4
           shift_distance := 3
           impact := "none"
           change_category := "formatting" }] := by
  constructor
  · decide
  · decide

/-- C6: on Scenario D inputs the coarse similarity is 85.71, below the
95 threshold, so the analyzer takes the basic word path: `real_changes`
is a single `words_added` record and contains no `line_addition` record,
contrary to the claimed output. -/
theorem c6_scenario_d_yields_words_added_not_line_addition :
    (universalAnalyze cfgDef [docInsOld, docInsNew]).map (fun r =>
        (r.basic_analysis.similarity_percentage,
         r.universal_analysis.real_changes.map (fun c => c.type_),
         (r.universal_analysis.real_changes.filter
           (fun c => c.type_ == "line_addition")).length))
      = .ok (mkRat 8571 100, ["words_added"], 0) := by
  decide

/-- A `filterMap` is non-empty exactly when some element maps to
`some`. -/
theorem filterMap_ne_nil_iff {α β : Type} (f : α → Option β) (l : List α) :
    l.filterMap f ≠ [] ↔ ∃ a ∈ l, f a ≠ none := by
  rw [Ne, List.filterMap_eq_nil_iff]
  push_neg
  rfl

/-- A document with content `"x"`. -/
def docX : FileInfo := { name := "f1", file_type := .text_segment, content := str "x" }

/-- A document with content `"x\n"` (its line split has a trailing blank
line). -/
def docXNl : FileInfo := { name := "f2", file_type := .text_segment, content := str "x\n" }

/-- C2 (counterexample): `"x"` versus `"x\n"` is handled in detailed line
mode (similarity 100); the alignment produces an `insert` opcode whose
only inserted line is blank, and that opcode contributes no
`ChangeRecord` and no `StructuralShift` — `real_changes` and
`structural_changes` are both empty. -/
theorem c2_counterexample_blank_insert_produces_no_record :
    (compareFiles cfgDef docX docXNl).similarity_percentage = 100 ∧
    getOpcodes (splitOnNl docX.content) (splitOnNl docXNl.content)
      = [⟨"equal", 0, 1, 0, 1⟩, ⟨"insert", 1, 1, 1, 2⟩] ∧
    (detailedLineAnalysis docX docXNl).real_changes = [] ∧
    (detailedLineAnalysis docX docXNl).structural_changes = [] := by
  decide

/-- C2 (amended): an `equal` opcode contributes no record; an `insert`
(resp. `delete`) opcode contributes at least one record iff at least one
of its inserted (resp. deleted) lines is non-blank after trimming; a
`replace` opcode contributes at least one record iff some positionally
paired line pair differs after trimming (such a pair always yields
exactly one record, falling back to a generic `content_modification`
when the classifier declines) or some unpaired extra line is non-blank. -/
theorem c2_nonequal_opcode_record_production
    (lines1 lines2 : List Line) (op : Opcode)
    (_hop : op ∈ getOpcodes lines1 lines2) :
    (op.tag = "equal" → processOpcode lines1 lines2 op = []) ∧
    (op.tag = "insert" →
      (processOpcode lines1 lines2 op ≠ [] ↔
        ∃ j ∈ List.range' op.j1 (op.j2 - op.j1), pyStrip (lines2.getD j []) ≠ [])) ∧
    (op.tag = "delete" →
      (processOpcode lines1 lines2 op ≠ [] ↔
        ∃ i ∈ List.range' op.i1 (op.i2 - op.i1), pyStrip (lines1.getD i []) ≠ [])) ∧
    (op.tag = "replace" →
      (processOpcode lines1 lines2 op ≠ [] ↔
        (∃ off ∈ List.range (min (op.i2 - op.i1) (op.j2 - op.j1)),
          pyStrip (lines1.getD (op.i1 + off) []) ≠ pyStrip (lines2.getD (op.j1 + off) [])) ∨
        (∃ i ∈ List.range' (op.i1 + min (op.i2 - op.i1) (op.j2 - op.j1))
            (op.i2 - (op.i1 + min (op.i2 - op.i1) (op.j2 - op.j1))),
          pyStrip (lines1.getD i []) ≠ []) ∨
        (∃ j ∈ List.range' (op.j1 + min (op.i2 - op.i1) (op.j2 - op.j1))
            (op.j2 - (op.j1 + min (op.i2 - op.i1) (op.j2 - op.j1))),
          pyStrip (lines2.getD j []) ≠ []))) := by
  clear _hop
  refine ⟨?_, ?_, ?_, ?_⟩ <;> intro htag
  · rw [processOpcode, if_pos htag]
  · rw [processOpcode, if_neg (by rw [htag]; decide), if_pos htag,
      filterMap_ne_nil_iff]
    refine exists_congr fun j => and_congr_right fun _ => ?_
    by_cases hc : pyStrip (lines2.getD j []) ≠ []
    · simp [hc]
    · simp [hc]
  · rw [processOpcode, if_neg (by rw [htag]; decide), if_neg (by rw [htag]; decide),
      if_pos htag, filterMap_ne_nil_iff]
    refine exists_congr fun i => and_congr_right fun _ => ?_
    by_cases hc : pyStrip (lines1.getD i []) ≠ []
    · simp [hc]
    · simp [hc]
  · rw [processOpcode, if_neg (by rw [htag]; decide), if_neg (by rw [htag]; decide),
      if_neg (by rw [htag]; decide), if_pos htag]
    rw [show ∀ a b c : List ChangeRecord, (a ++ b ++ c ≠ [] ↔ a ≠ [] ∨ b ≠ [] ∨ c ≠ [])
      from fun a b c => by
        rw [Ne, Ne, Ne, Ne, List.append_assoc, List.append_eq_nil, List.append_eq_nil]
        tauto]
    refine or_congr ?_ (or_congr ?_ ?_)
    · rw [filterMap_ne_nil_iff]
      refine exists_congr fun off => and_congr_right fun _ => ?_
      by_cases hc : pyStrip (lines1.getD (op.i1 + off) [])
          ≠ pyStrip (lines2.getD (op.j1 + off) [])
      · simp [hc]
      · simp [hc]
    · by_cases hg : op.i2 - op.i1 > min (op.i2 - op.i1) (op.j2 - op.j1)
      · rw [if_pos hg, filterMap_ne_nil_iff]
        refine exists_congr fun i => and_congr_right fun _ => ?_
        by_cases hc : pyStrip (lines1.getD i []) ≠ []
        · simp [hc]
        · simp [hc]
      · rw [if_neg hg]
        have hz : op.i2 - (op.i1 + min (op.i2 - op.i1) (op.j2 - op.j1)) = 0 := by omega
        rw [hz]
        simp
    · by_cases hg : op.j2 - op.j1 > min (op.i2 - op.i1) (op.j2 - op.j1)
      · rw [if_pos hg, filterMap_ne_nil_iff]
        refine exists_congr fun j => and_congr_right fun _ => ?_
        by_cases hc : pyStrip (lines2.getD j []) ≠ []
        · simp [hc]
        · simp [hc]
      · rw [if_neg hg]
        have hz : op.j2 - (op.j1 + min (op.i2 - op.i1) (op.j2 - op.j1)) = 0 := by omega
        rw [hz]
        simp

/-- C2 (witness): the amended theorem applied to the concrete alignment
of `["x"]` against `["x", ""]`: its `equal` opcode contributes no
record. -/
theorem c2_nonequal_opcode_record_production_witness :
    processOpcode [str "x"] [str "x", []] ⟨"equal", 0, 1, 0, 1⟩ = [] :=
  (c2_nonequal_opcode_record_production [str "x"] [str "x", []]
    ⟨"equal", 0, 1, 0, 1⟩ (by decide)).1 rfl

/-- Evaluation lemma for `mkRat` as a field quotient. -/
theorem mkRat_eq_div' (n : ℤ) (d : ℕ) : mkRat n d = (n : ℚ) / (d : ℚ) := by
  rw [Rat.mkRat_eq_divInt, Rat.divInt_eq_div]
  norm_num

/-- Folding `maxRel` from an infinite (`none`) accumulator stays
infinite. -/
theorem foldl_maxRel_none (cs : List (Option ℚ)) :
    cs.foldl maxRel none = none := by
  induction cs with
  | nil => rfl
  | cons c cs ih => simpa [maxRel] using ih

/-- Folding `maxRel` over a list containing an infinity yields
infinity. -/
theorem foldl_maxRel_of_mem_none (cs : List (Option ℚ)) (init : Option ℚ)
    (h : none ∈ cs) : cs.foldl maxRel init = none := by
  induction cs generalizing init with
  | nil => cases h
  | cons c cs ih =>
    rcases List.mem_cons.mp h with hc | hc
    · subst hc
      have : maxRel init none = none := by cases init <;> rfl
      simpa [this] using foldl_maxRel_none cs
    · exact ih _ hc

/-- Folding `maxRel` over finite values is the finite fold of `max`. -/
theorem foldl_maxRel_somes (l : List ℚ) (v : ℚ) :
    (l.map some).foldl maxRel (some v) = some (l.foldl max v) := by
  induction l generalizing v with
  | nil => rfl
  | cons x xs ih => simpa [maxRel] using ih (max v x)

/-- The mathematical maximum of the pairwise relative changes (with
initial value 0; every entry is an absolute value, so for non-empty
lists this is the true maximum). -/
def maxRelChange (os ns : List ℚ) : ℚ :=
  ((os.zip ns).map (fun p => |(p.2 - p.1) / p.1|)).foldl max 0

/-- C5 (counterexample): a pair of equal-length parseable numeric token
lists whose old value is 0 is assessed as `major` (the guarded division
substitutes `float('inf')`), not as the claimed `moderate`. -/
theorem c5_counterexample_zero_old_value_yields_major :
    assessNumericImpact [str "0"] [str "5"] = "major" := by
  decide

/-- C5 (amended): for equal-length parseable non-empty lists, a zero old
value forces `major` (infinite relative change); with all old values
non-zero, `major` iff the maximum relative change strictly exceeds 1,
`moderate` iff it strictly exceeds 1/10 but not 1, `minor` otherwise (so
an exact 2x change yields `moderate`); a failed parse, a length
mismatch, and the empty list all fall to the conservative `moderate`. -/
theorem c5_numeric_impact_characterization
    (oldNumbers newNumbers : List Line) :
    (∀ os ns, oldNumbers.mapM parseDecimal = some os →
      newNumbers.mapM parseDecimal = some ns →
      os.length = ns.length → os ≠ [] →
      ((∃ p ∈ os.zip ns, p.1 = 0) →
        assessNumericImpact oldNumbers newNumbers = "major") ∧
      ((∀ p ∈ os.zip ns, p.1 ≠ 0) →
        (assessNumericImpact oldNumbers newNumbers = "major" ↔
          1 < maxRelChange os ns) ∧
        (assessNumericImpact oldNumbers newNumbers = "moderate" ↔
          (mkRat 1 10 < maxRelChange os ns ∧ maxRelChange os ns ≤ 1)) ∧
        (assessNumericImpact oldNumbers newNumbers = "minor" ↔
          maxRelChange os ns ≤ mkRat 1 10))) ∧
    ((oldNumbers.mapM parseDecimal = none ∨ newNumbers.mapM parseDecimal = none) →
      assessNumericImpact oldNumbers newNumbers = "moderate") ∧
    (∀ os ns, oldNumbers.mapM parseDecimal = some os →
      newNumbers.mapM parseDecimal = some ns → os.length ≠ ns.length →
      assessNumericImpact oldNumbers newNumbers = "moderate") ∧
    (∀ ns, oldNumbers.mapM parseDecimal = some [] →
      newNumbers.mapM parseDecimal = some ns →
      assessNumericImpact oldNumbers newNumbers = "moderate") := by
  refine ⟨?_, ?_, ?_, ?_⟩
  · intro os ns ho hn hlen hne
    match os, ns, hne, hlen with
    | o :: os, n :: ns, _, hlen =>
      have hmain : assessNumericImpact oldNumbers newNumbers =
          (if relGt (((os.zip ns).map (fun p => relChange p.1 p.2)).foldl maxRel
              (relChange o n)) 1 then "major"
           else if relGt (((os.zip ns).map (fun p => relChange p.1 p.2)).foldl maxRel
              (relChange o n)) (mkRat 1 10) then "moderate"
           else "minor") := by
        rw [assessNumericImpact, ho, hn]
        show (if (o :: os).length ≠ (n :: ns).length then "moderate"
          else match ((o :: os).zip (n :: ns)).map (fun p => relChange p.1 p.2) with
            | [] => "moderate"
            | c :: cs =>
              if relGt (cs.foldl maxRel c) 1 then "major"
              else if relGt (cs.foldl maxRel c) (mkRat 1 10) then "moderate"
              else "minor") = _
        rw [if_neg (not_not_intro hlen), List.zip_cons_cons, List.map_cons]
      constructor
      · rintro ⟨p, hp, hp0⟩
        rw [hmain]
        rcases List.mem_cons.mp hp with hc | hc
        · have ho0 : o = 0 := by rw [hc] at hp0; exact hp0
          have hrn : relChange o n = none := by
            rw [relChange, if_neg (by simp [ho0])]
          rw [hrn, foldl_maxRel_none ((os.zip ns).map fun p => relChange p.1 p.2)]
          rfl
        · have hnm : none ∈ (os.zip ns).map (fun p => relChange p.1 p.2) := by
            refine List.mem_map.mpr ⟨p, hc, ?_⟩
            rw [relChange, if_neg (by simp [hp0])]
          rw [foldl_maxRel_of_mem_none _ _ hnm]
          rfl
      · intro hnz
        have hrc : ∀ p : ℚ × ℚ, p ∈ (o, n) :: os.zip ns →
            relChange p.1 p.2 = some |(p.2 - p.1) / p.1| := by
          intro p hp
          rw [relChange, if_pos (hnz p hp), qDiv_eq, qSub_eq]
        have hmap : ((os.zip ns).map fun p => relChange p.1 p.2)
            = ((os.zip ns).map fun p => |(p.2 - p.1) / p.1|).map some := by
          rw [List.map_map]
          refine List.map_congr_left ?_
          intro p hp
          exact hrc p (List.mem_cons_of_mem _ hp)
        have hhead : relChange o n = some |(n - o) / o| :=
          hrc (o, n) (List.mem_cons_self _ _)
        have habs : (0 : ℚ) ≤ |(n - o) / o| := abs_nonneg _
        have hfold : ((os.zip ns).map fun p => relChange p.1 p.2).foldl maxRel
            (relChange o n)
            = some (((os.zip ns).map fun p => |(p.2 - p.1) / p.1|).foldl max
                |(n - o) / o|) := by
          rw [hmap, hhead, foldl_maxRel_somes]
        have hmx : maxRelChange (o :: os) (n :: ns)
            = ((os.zip ns).map fun p => |(p.2 - p.1) / p.1|).foldl max |(n - o) / o| := by
          rw [maxRelChange]
          simp only [List.zip_cons_cons, List.map_cons, List.foldl_cons]
          rw [max_eq_right habs]
        rw [hmain, hfold, hmx]
        set m := ((os.zip ns).map fun p => |(p.2 - p.1) / p.1|).foldl max |(n - o) / o|
          with hm
        have hten : mkRat 1 10 = (1 : ℚ) / 10 := by
          rw [mkRat_eq_div']
          norm_num
        rw [hten]
        by_cases h1 : 1 < m
        · rw [if_pos (show relGt (some m) 1 = true from decide_eq_true h1)]
          exact ⟨⟨fun _ => h1, fun _ => rfl⟩,
            ⟨fun h => absurd h (by decide), fun h => absurd h1 (not_lt.mpr h.2)⟩,
            ⟨fun h => absurd h (by decide),
             fun h => absurd h1 (not_lt.mpr (le_trans h (by norm_num)))⟩⟩
        · rw [if_neg (show ¬relGt (some m) 1 = true from
            ne_true_of_eq_false (decide_eq_false h1))]
          push_neg at h1
          by_cases h2 : 1/10 < m
          · rw [if_pos (show relGt (some m) ((1 : ℚ)/10) = true from decide_eq_true h2)]
            exact ⟨⟨fun h => absurd h (by decide), fun h => absurd h1 (not_le.mpr h)⟩,
              ⟨fun _ => ⟨h2, h1⟩, fun _ => rfl⟩,
              ⟨fun h => absurd h (by decide), fun h => absurd h (not_le.mpr h2)⟩⟩
          · rw [if_neg (show ¬relGt (some m) ((1 : ℚ)/10) = true from
              ne_true_of_eq_false (decide_eq_false h2))]
            push_neg at h2
            exact ⟨⟨fun h => absurd h (by decide), fun h => absurd h1 (not_le.mpr h)⟩,
              ⟨fun h => absurd h (by decide), fun h => absurd h.1 (not_lt.mpr h2)⟩,
              ⟨fun _ => h2, fun _ => rfl⟩⟩
  · rintro (ho | hn)
    · rw [assessNumericImpact, ho]
    · rw [assessNumericImpact, hn]
      cases oldNumbers.mapM parseDecimal <;> rfl
  · intro os ns ho hn hlen
    rw [assessNumericImpact, ho, hn]
    exact if_pos hlen
  · intro ns ho hn
    rw [assessNumericImpact, ho, hn]
    cases ns <;> rfl

/-- C5 (witness): the amended theorem at the boundary pair `100 → 200`
(an exact 2x change): the assessed impact is `moderate`, not `major`. -/
theorem c5_numeric_impact_characterization_witness :
    assessNumericImpact [str "100"] [str "200"] = "moderate" := by
  have h := ((c5_numeric_impact_characterization [str "100"] [str "200"]).1
    [(100 : ℚ)] [(200 : ℚ)] (by decide) (by decide) rfl (by decide)).2
    (by intro p hp; simp at hp; rw [hp]; norm_num)
  refine h.2.1.mpr ?_
  simp [maxRelChange, mkRat_eq_div']
  norm_num

/-- Shape of the record list `_basic_word_analysis` builds: at most one
`words_added` record, at most one `words_removed` record, and nothing
else. -/
theorem basicWordChanges_shape (f1 f2 : FileInfo) :
    ((basicWordChanges f1 f2).filter (fun c => c.type_ == "words_added")).length ≤ 1 ∧
    ((basicWordChanges f1 f2).filter (fun c => c.type_ == "words_removed")).length ≤ 1 ∧
    ∀ c ∈ basicWordChanges f1 f2,
      c.type_ = "words_added" ∨ c.type_ = "words_removed" := by
  simp only [basicWordChanges]
  split_ifs <;> refine ⟨?_, ?_, ?_⟩ <;> simp [List.filter]

/-- C4: with exactly two registered documents the orchestrator never
fails; it selects detailed line analysis iff the reported coarse
similarity percentage is at least 95, and otherwise produces the basic
word analysis: empty `structural_changes`, at most one `words_added` and
one `words_removed` record and no other record kind. -/
theorem c4_strategy_selection (cfg : AnalysisConfig) (f1 f2 : FileInfo) :
    (∀ e, performUniversalAnalysis cfg [f1, f2] ≠ .error e) ∧
    (∀ u, performUniversalAnalysis cfg [f1, f2] = .ok u →
      ((u.analysis_method = "detailed_line_diff" ↔
        (compareFiles cfg f1 f2).similarity_percentage ≥ 95) ∧
       (¬((compareFiles cfg f1 f2).similarity_percentage ≥ 95) →
        u = basicWordAnalysis f1 f2 ∧
        u.structural_changes = [] ∧
        (u.real_changes.filter (fun c => c.type_ == "words_added")).length ≤ 1 ∧
        (u.real_changes.filter (fun c => c.type_ == "words_removed")).length ≤ 1 ∧
        ∀ c ∈ u.real_changes,
          c.type_ = "words_added" ∨ c.type_ = "words_removed"))) := by
  have hperf : performUniversalAnalysis cfg [f1, f2]
      = (if (compareFiles cfg f1 f2).similarity_percentage ≥ 95
         then .ok (detailedLineAnalysis f1 f2)
         else .ok (basicWordAnalysis f1 f2)) := by
    simp only [performUniversalAnalysis, List.length_cons, List.length_nil,
      List.getD_cons_zero, List.getD_cons_succ]
    rw [if_neg (by omega)]
  by_cases hs : (compareFiles cfg f1 f2).similarity_percentage ≥ 95
  · rw [hperf, if_pos hs]
    refine ⟨fun e h => Except.noConfusion h, fun u hu => ?_⟩
    obtain rfl : u = detailedLineAnalysis f1 f2 := (Except.ok.inj hu).symm
    exact ⟨⟨fun _ => hs, fun _ => rfl⟩, fun hns => absurd hs hns⟩
  · rw [hperf, if_neg hs]
    refine ⟨fun e h => Except.noConfusion h, fun u hu => ?_⟩
    obtain rfl : u = basicWordAnalysis f1 f2 := (Except.ok.inj hu).symm
    have hsh := basicWordChanges_shape f1 f2
    refine ⟨⟨fun hm => absurd hm ?_, fun hy => absurd hy hs⟩,
      fun _ => ⟨rfl, rfl, hsh.1, hsh.2.1, hsh.2.2⟩⟩
    show ¬("basic_word_diff" = "detailed_line_diff")
    decide

/-- C4 (witness): the strategy-selection theorem applied to the Scenario
D documents (similarity 85.71, below 95): the orchestrator takes the
basic word path, whose record list contains no line-level records. -/
theorem c4_strategy_selection_witness :
    (basicWordAnalysis docInsOld docInsNew).structural_changes = [] ∧
    ∀ c ∈ (basicWordAnalysis docInsOld docInsNew).real_changes,
      c.type_ = "words_added" ∨ c.type_ = "words_removed" := by
  have h := ((c4_strategy_selection cfgDef docInsOld docInsNew).2
    (basicWordAnalysis docInsOld docInsNew) (by decide)) |>.2 (by decide)
  exact ⟨h.2.1, h.2.2.2.2⟩

/-- C7 (amended): the *unrounded* similarity is 100 and the unrounded
difference is 0 exactly when the two extracted word sets are equal
(including the both-empty case); set-equality still forces the reported
(rounded) percentages to be 100 and 0.  The converse for the *reported*
percentages fails: rounding to two decimals can report (100, 0) for
unequal sets (see the counterexample). -/
theorem c7_percentages_iff_word_sets_equal (cfg : AnalysisConfig) (f1 f2 : FileInfo) :
    ((similarityExact cfg f1 f2 = 100 ∧ differenceExact cfg f1 f2 = 0) ↔
      (wordSetsOf cfg f1 f2).1 = (wordSetsOf cfg f1 f2).2) ∧
    ((wordSetsOf cfg f1 f2).1 = (wordSetsOf cfg f1 f2).2 →
      (compareFiles cfg f1 f2).similarity_percentage = 100 ∧
      (compareFiles cfg f1 f2).difference_percentage = 0) := by
  have hexact : (wordSetsOf cfg f1 f2).1 = (wordSetsOf cfg f1 f2).2 →
      similarityExact cfg f1 f2 = 100 ∧ differenceExact cfg f1 f2 = 0 := by
    intro heq
    simp only [similarityExact, differenceExact, heq, Finset.inter_self,
      Finset.sdiff_self, Finset.card_empty]
    by_cases h : (wordSetsOf cfg f1 f2).2.card + (wordSetsOf cfg f1 f2).2.card = 0
    · rw [if_pos h, if_pos h]
      exact ⟨rfl, rfl⟩
    · rw [if_neg h, if_neg h, qMul_eq, qMul_eq, qDiv_eq, qDiv_eq]
      have ht : (((wordSetsOf cfg f1 f2).2.card + (wordSetsOf cfg f1 f2).2.card : ℕ) : ℚ) ≠ 0 :=
        Nat.cast_ne_zero.mpr h
      constructor
      · rw [div_mul_eq_mul_div, div_eq_iff ht]
        push_cast
        ring
      · simp
  constructor
  · constructor
    · rintro ⟨hs, hd⟩
      by_cases h : (wordSetsOf cfg f1 f2).1.card + (wordSetsOf cfg f1 f2).2.card = 0
      · have h1 : (wordSetsOf cfg f1 f2).1 = ∅ := Finset.card_eq_zero.mp (by omega)
        have h2 : (wordSetsOf cfg f1 f2).2 = ∅ := Finset.card_eq_zero.mp (by omega)
        rw [h1, h2]
      · simp only [differenceExact] at hd
        rw [if_neg h, qMul_eq, qDiv_eq] at hd
        have ht : (((wordSetsOf cfg f1 f2).1.card + (wordSetsOf cfg f1 f2).2.card : ℕ) : ℚ) ≠ 0 :=
          Nat.cast_ne_zero.mpr h
        rw [div_mul_eq_mul_div, div_eq_zero_iff] at hd
        rcases hd with hd | hd
        · have hz : (((wordSetsOf cfg f1 f2).1 \ (wordSetsOf cfg f1 f2).2).card
              + ((wordSetsOf cfg f1 f2).2 \ (wordSetsOf cfg f1 f2).1).card : ℕ) = 0 := by
            have := mul_eq_zero.mp hd
            rcases this with hz | hz
            · exact_mod_cast hz
            · norm_num at hz
          have hsub1 : (wordSetsOf cfg f1 f2).1 ⊆ (wordSetsOf cfg f1 f2).2 :=
            Finset.sdiff_eq_empty_iff_subset.mp (Finset.card_eq_zero.mp (by omega))
          have hsub2 : (wordSetsOf cfg f1 f2).2 ⊆ (wordSetsOf cfg f1 f2).1 :=
            Finset.sdiff_eq_empty_iff_subset.mp (Finset.card_eq_zero.mp (by omega))
          exact Finset.Subset.antisymm hsub1 hsub2
        · exact absurd hd ht
    · intro heq
      exact hexact heq
  · intro heq
    have hv := hexact heq
    have h100 : pyRound2 100 = 100 := by decide
    have h0 : pyRound2 0 = 0 := by decide
    constructor
    · show pyRound2 (similarityExact cfg f1 f2) = 100
      rw [hv.1, h100]
    · show pyRound2 (differenceExact cfg f1 f2) = 0
      rw [hv.2, h0]

/-- C7 (witness): the amended theorem applied to a document compared
with itself: the word sets coincide, so the reported percentages are 100
and 0. -/
theorem c7_percentages_iff_word_sets_equal_witness :
    (compareFiles cfgDef docAB docAB).similarity_percentage = 100 ∧
    (compareFiles cfgDef docAB docAB).difference_percentage = 0 :=
  (c7_percentages_iff_word_sets_equal cfgDef docAB docAB).2 rfl

/-!  Development for the greedy block matcher (claim C9). -/

/-- Similarity of a first-document block against the block of the second
document at index `k`. -/
def simAt (b1 : Block) (blocks2 : List Block) (k : ℕ) : ℚ :=
  calculateBlockSimilarity b1 (blocks2.getD k default)

/-- Loop invariant of `bestLoop` after the candidate indices below `m`
have been considered: the running `best_similarity` dominates every
eligible candidate seen so far (up to the 0.6 acceptance bound), and a
recorded `best_match` is an eligible index attaining it first. -/
def StInv (b1 : Block) (blocks2 : List Block) (used : List ℕ) (m : ℕ)
    (st : Option ℕ × ℚ) : Prop :=
  (∀ k, k < m → k ∉ used →
    simAt b1 blocks2 k ≤ st.2 ∨ simAt b1 blocks2 k < mkRat 3 5) ∧
  (match st.1 with
   | some j => j < m ∧ j ∉ used ∧ st.2 = simAt b1 blocks2 j ∧ mkRat 3 5 ≤ st.2 ∧
       ∀ k, k < j → k ∉ used →
         simAt b1 blocks2 k < st.2 ∨ simAt b1 blocks2 k < mkRat 3 5
   | none => st.2 = 0)

theorem bestLoop_invariant (b1 : Block) (blocks2 : List Block) (used : List ℕ) :
    ∀ (bs : List Block) (j0 : ℕ) (st : Option ℕ × ℚ),
    blocks2.drop j0 = bs →
    StInv b1 blocks2 used j0 st →
    StInv b1 blocks2 used (j0 + bs.length) (bestLoop b1 used j0 bs st) := by
  intro bs
  induction bs with
  | nil => intro j0 st _ hst; simpa using hst
  | cons b bs ih =>
    intro j0 st hdrop hst
    have hj0 : j0 < blocks2.length := by
      by_contra hc
      rw [List.drop_eq_nil_of_le (by omega)] at hdrop
      cases hdrop
    have hget : blocks2.getD j0 default = b := by
      rw [List.getD_eq_getElem?_getD, ← List.head?_drop blocks2 j0, hdrop]
      rfl
    have hdrop' : blocks2.drop (j0 + 1) = bs := by
      rw [← List.tail_drop, hdrop]
      rfl
    have hlen : j0 + (b :: bs).length = (j0 + 1) + bs.length := by
      simp
      omega
    rw [hlen]
    rw [bestLoop]
    by_cases hused : j0 ∈ used
    · rw [if_pos hused]
      refine ih (j0 + 1) st hdrop' ⟨?_, ?_⟩
      · intro k hk hku
        rcases Nat.lt_succ_iff_lt_or_eq.mp hk with hk' | hk'
        · exact hst.1 k hk' hku
        · subst hk'; exact absurd hused hku
      · have h2 := hst.2
        match hs : st.1 with
        | some j =>
          rw [hs] at h2
          exact ⟨by omega, h2.2.1, h2.2.2.1, h2.2.2.2.1, h2.2.2.2.2⟩
        | none => rw [hs] at h2; exact h2
    · rw [if_neg hused]
      by_cases hcond : calculateBlockSimilarity b1 b > st.2 ∧
          calculateBlockSimilarity b1 b ≥ mkRat 3 5
      · rw [if_pos hcond]
        refine ih (j0 + 1) (some j0, calculateBlockSimilarity b1 b) hdrop' ⟨?_, ?_⟩
        · intro k hk hku
          rcases Nat.lt_succ_iff_lt_or_eq.mp hk with hk' | hk'
          · rcases hst.1 k hk' hku with h | h
            · exact Or.inl (le_trans h (le_of_lt hcond.1))
            · exact Or.inr h
          · subst hk'
            left
            show simAt b1 blocks2 k ≤ calculateBlockSimilarity b1 b
            rw [simAt, hget]
        · refine ⟨by omega, hused, ?_, hcond.2, ?_⟩
          · show calculateBlockSimilarity b1 b = simAt b1 blocks2 j0
            rw [simAt, hget]
          · intro k hk hku
            rcases hst.1 k (by omega) hku with h | h
            · exact Or.inl (lt_of_le_of_lt h hcond.1)
            · exact Or.inr h
      · rw [if_neg hcond]
        refine ih (j0 + 1) st hdrop' ⟨?_, ?_⟩
        · intro k hk hku
          rcases Nat.lt_succ_iff_lt_or_eq.mp hk with hk' | hk'
          · exact hst.1 k hk' hku
          · subst hk'
            rw [not_and_or] at hcond
            rcases hcond with h | h
            · left
              rw [simAt, hget]
              exact le_of_not_lt h
            · right
              rw [simAt, hget]
              exact lt_of_not_le h
        · have h2 := hst.2
          match hs : st.1 with
          | some j =>
            rw [hs] at h2
            exact ⟨by omega, h2.2.1, h2.2.2.1, h2.2.2.2.1, h2.2.2.2.2⟩
          | none => rw [hs] at h2; exact h2

/-- Specification of `bestCandidate`: a selected index is in range,
unused, at or above the 0.6 acceptance bound, of maximal similarity
among the unused indices, and the first index attaining that maximum;
when no index is selected, every unused index is below the bound. -/
theorem bestCandidate_spec (b1 : Block) (blocks2 : List Block) (used : List ℕ) :
    (∀ j, bestCandidate b1 blocks2 used = some j →
      j < blocks2.length ∧ j ∉ used ∧ mkRat 3 5 ≤ simAt b1 blocks2 j ∧
      (∀ k, k < blocks2.length → k ∉ used →
        simAt b1 blocks2 k ≤ simAt b1 blocks2 j) ∧
      (∀ k, k < j → k ∉ used → simAt b1 blocks2 k < simAt b1 blocks2 j)) ∧
    (bestCandidate b1 blocks2 used = none →
      ∀ k, k < blocks2.length → k ∉ used → simAt b1 blocks2 k < mkRat 3 5) := by
  have hinv := bestLoop_invariant b1 blocks2 used blocks2 0 (none, 0) rfl
    ⟨fun k hk _ => absurd hk (by omega), rfl⟩
  rw [Nat.zero_add] at hinv
  constructor
  · intro j hj
    rw [bestCandidate] at hj
    have h2 := hinv.2
    rw [hj] at h2
    obtain ⟨hjm, hju, hsim, hbound, hfirst⟩ := h2
    refine ⟨hjm, hju, by rw [← hsim]; exact hbound, ?_, ?_⟩
    · intro k hk hku
      rcases hinv.1 k hk hku with h | h
      · rw [← hsim]; exact h
      · rw [← hsim]; exact le_of_lt (lt_of_lt_of_le h hbound)
    · intro k hk hku
      rcases hfirst k hk hku with h | h
      · rw [← hsim]; exact h
      · rw [← hsim]; exact lt_of_lt_of_le h hbound
  · intro hnone k hk hku
    rw [bestCandidate] at hnone
    have h2 := hinv.2
    rw [hnone] at h2
    rcases hinv.1 k hk hku with h | h
    · rw [h2] at h
      exact lt_of_le_of_lt h (by decide)
    · exact h

/-- Unfolding of `greedyAux` over a snoc: the last block of the first
document is processed after all earlier ones. -/
theorem greedyAux_snoc (blocks2 : List Block) (xs : List Block) (b : Block) :
    ∀ (i : ℕ) (m : List (ℕ × ℕ)),
    greedyAux blocks2 i (xs ++ [b]) m =
      (match bestCandidate b blocks2
          ((greedyAux blocks2 i xs m).map Prod.snd) with
       | some j => greedyAux blocks2 i xs m ++ [(i + xs.length, j)]
       | none => greedyAux blocks2 i xs m) := by
  induction xs with
  | nil =>
    intro i m
    simp only [List.nil_append, List.length_nil, Nat.add_zero, greedyAux]
  | cons x xs ih =>
    intro i m
    rw [List.cons_append]
    rw [greedyAux]
    conv_rhs => rw [greedyAux]
    cases hbc : bestCandidate x blocks2 (m.map Prod.snd) with
    | some j =>
      simp only [List.length_cons,
        show i + (xs.length + 1) = i + 1 + xs.length from by omega]
      exact ih (i + 1) (m ++ [(i, j)])
    | none =>
      simp only [List.length_cons,
        show i + (xs.length + 1) = i + 1 + xs.length from by omega]
      exact ih (i + 1) m

/-- The matcher invariant carried over the prefix of the first
document's block list. -/
def GInv (blocks1 blocks2 : List Block) (n : ℕ) (M : List (ℕ × ℕ)) : Prop :=
  (∀ p ∈ M, p.1 < n) ∧
  List.Pairwise (· < ·) (M.map Prod.fst) ∧
  (M.map Prod.snd).Nodup ∧
  (∀ p ∈ M, p.2 < blocks2.length ∧
    mkRat 3 5 ≤ simAt (blocks1.getD p.1 default) blocks2 p.2) ∧
  (∀ p ∈ M, ∀ k, k < blocks2.length → (¬∃ q ∈ M, q.1 < p.1 ∧ q.2 = k) →
    simAt (blocks1.getD p.1 default) blocks2 k ≤
      simAt (blocks1.getD p.1 default) blocks2 p.2 ∧
    (k < p.2 → simAt (blocks1.getD p.1 default) blocks2 k <
      simAt (blocks1.getD p.1 default) blocks2 p.2)) ∧
  (∀ i, i < n → (∀ j, (i, j) ∉ M) → ∀ k, k < blocks2.length →
    (¬∃ q ∈ M, q.1 < i ∧ q.2 = k) →
    simAt (blocks1.getD i default) blocks2 k < mkRat 3 5)

theorem greedy_GInv (blocks1 blocks2 : List Block) :
    ∀ n, n ≤ blocks1.length →
      GInv blocks1 blocks2 n (greedyAux blocks2 0 (blocks1.take n) []) := by
  intro n
  induction n with
  | zero =>
    intro _
    exact ⟨fun p hp => absurd hp (List.not_mem_nil p),
      List.Pairwise.nil, List.nodup_nil,
      fun p hp => absurd hp (List.not_mem_nil p),
      fun p hp => absurd hp (List.not_mem_nil p),
      fun i hi => absurd hi (Nat.not_lt_zero i)⟩
  | succ n ih =>
    intro hn1
    have hn : n < blocks1.length := hn1
    obtain ⟨h1, h2, h3, h4, h5, h6⟩ := ih (le_of_lt hn)
    have htake : blocks1.take (n + 1)
        = blocks1.take n ++ [blocks1.getD n default] := by
      rw [List.take_succ]
      congr 1
      rw [List.getD_eq_getElem?_getD, List.getElem?_eq_getElem hn]
      rfl
    have hlen : (blocks1.take n).length = n := by
      rw [List.length_take]
      omega
    rw [htake, greedyAux_snoc, hlen, Nat.zero_add]
    set M := greedyAux blocks2 0 (blocks1.take n) [] with hMdef
    have hmem_snd : ∀ k, (∃ q ∈ M, q.1 < n ∧ q.2 = k) ↔ k ∈ M.map Prod.snd := by
      intro k
      constructor
      · rintro ⟨q, hq, _, hq2⟩
        exact List.mem_map.mpr ⟨q, hq, hq2⟩
      · intro hk
        obtain ⟨q, hq, hq2⟩ := List.mem_map.mp hk
        exact ⟨q, hq, h1 q hq, hq2⟩
    cases hbc : bestCandidate (blocks1.getD n default) blocks2 (M.map Prod.snd) with
    | none =>
      refine ⟨fun p hp => Nat.lt_succ_of_lt (h1 p hp), h2, h3, h4, h5, ?_⟩
      intro i hi hno k hk hknot
      rcases Nat.lt_succ_iff_lt_or_eq.mp hi with hi' | hi'
      · exact h6 i hi' hno k hk hknot
      · subst hi'
        refine (bestCandidate_spec (blocks1.getD i default) blocks2
          (M.map Prod.snd)).2 hbc k hk ?_
        intro hkin
        exact hknot ((hmem_snd k).mpr hkin)
    | some j =>
      obtain ⟨hjlen, hjnotused, hjsim, hjmax, hjfirst⟩ :=
        (bestCandidate_spec (blocks1.getD n default) blocks2 (M.map Prod.snd)).1 j hbc
      have hnotin : ∀ q ∈ M, ¬(n < q.1) := fun q hq => by
        have := h1 q hq
        omega
      have hcond_transfer : ∀ (i : ℕ) (k : ℕ), i ≤ n →
          (¬∃ q ∈ M ++ [(n, j)], q.1 < i ∧ q.2 = k) → ¬∃ q ∈ M, q.1 < i ∧ q.2 = k := by
        rintro i k _ hno ⟨q, hq, hqi, hqk⟩
        exact hno ⟨q, List.mem_append_left _ hq, hqi, hqk⟩
      refine ⟨?_, ?_, ?_, ?_, ?_, ?_⟩
      · intro p hp
        rcases List.mem_append.mp hp with hp | hp
        · exact Nat.lt_succ_of_lt (h1 p hp)
        · rw [List.mem_singleton.mp hp]
          exact Nat.lt_succ_self n
      · rw [List.map_append]
        refine List.pairwise_append.mpr ⟨h2, List.pairwise_singleton _ _, ?_⟩
        intro a ha b hb
        simp only [List.map_cons, List.map_nil, List.mem_singleton] at hb
        obtain ⟨q, hq, hqa⟩ := List.mem_map.mp ha
        rw [hb, ← hqa]
        exact h1 q hq
      · rw [List.map_append]
        refine List.nodup_append.mpr ⟨h3, List.nodup_singleton _, ?_⟩
        intro a ha hb
        simp only [List.map_cons, List.map_nil, List.mem_singleton] at hb
        rw [hb] at ha
        exact hjnotused ha
      · intro p hp
        rcases List.mem_append.mp hp with hp | hp
        · exact h4 p hp
        · rw [List.mem_singleton.mp hp]
          exact ⟨hjlen, hjsim⟩
      · intro p hp k hk hknot
        rcases List.mem_append.mp hp with hp | hp
        · exact h5 p hp k hk (hcond_transfer p.1 k (le_of_lt (h1 p hp)) hknot)
        · rw [List.mem_singleton.mp hp]
          rw [List.mem_singleton.mp hp] at hknot
          have hknot' : ¬∃ q ∈ M, q.1 < n ∧ q.2 = k :=
            hcond_transfer n k le_rfl hknot
          have hkun : k ∉ M.map Prod.snd := fun hkin =>
            hknot' ((hmem_snd k).mpr hkin)
          exact ⟨hjmax k hk hkun, fun hkj => hjfirst k hkj hkun⟩
      · intro i hi hno k hk hknot
        rcases Nat.lt_succ_iff_lt_or_eq.mp hi with hi' | hi'
        · refine h6 i hi' ?_ k hk (hcond_transfer i k (le_of_lt hi') hknot)
          intro j' hj'
          exact hno j' (List.mem_append_left _ hj')
        · subst hi'
          exact absurd (List.mem_append_right _ (List.mem_singleton_self _)) (hno j)

/-- C9: invariants of the greedy block matcher.  The match list is
injective on both sides; every accepted pair is in range with Jaccard
similarity at least 0.6; each matched first-document block is paired
with a maximum-similarity second-document block among those not matched
by an earlier first-document block, ties resolved to the first-
encountered maximum; and an unmatched first-document block has no
not-yet-matched candidate at or above 0.6. -/
theorem c9_greedy_matcher_invariants (blocks1 blocks2 : List Block) :
    ((greedyMatchBySignature blocks1 blocks2).map Prod.fst).Nodup ∧
    ((greedyMatchBySignature blocks1 blocks2).map Prod.snd).Nodup ∧
    (∀ p ∈ greedyMatchBySignature blocks1 blocks2,
      p.1 < blocks1.length ∧ p.2 < blocks2.length ∧
      mkRat 3 5 ≤ simAt (blocks1.getD p.1 default) blocks2 p.2) ∧
    (∀ p ∈ greedyMatchBySignature blocks1 blocks2, ∀ k, k < blocks2.length →
      (¬∃ q ∈ greedyMatchBySignature blocks1 blocks2, q.1 < p.1 ∧ q.2 = k) →
      simAt (blocks1.getD p.1 default) blocks2 k ≤
        simAt (blocks1.getD p.1 default) blocks2 p.2 ∧
      (k < p.2 → simAt (blocks1.getD p.1 default) blocks2 k <
        simAt (blocks1.getD p.1 default) blocks2 p.2)) ∧
    (∀ i, i < blocks1.length →
      (∀ j, (i, j) ∉ greedyMatchBySignature blocks1 blocks2) →
      ∀ k, k < blocks2.length →
      (¬∃ q ∈ greedyMatchBySignature blocks1 blocks2, q.1 < i ∧ q.2 = k) →
      simAt (blocks1.getD i default) blocks2 k < mkRat 3 5) := by
  have h := greedy_GInv blocks1 blocks2 blocks1.length le_rfl
  rw [List.take_length] at h
  obtain ⟨h1, h2, h3, h4, h5, h6⟩ := h
  exact ⟨h2.imp (fun hab => Nat.ne_of_lt hab), h3,
    fun p hp => ⟨h1 p hp, (h4 p hp).1, (h4 p hp).2⟩, h5, h6⟩

/-- C9 (witness): the matcher invariants applied to two concrete
one-block lists with identical content: the single pair `(0, 0)` is
accepted with similarity 1 ≥ 0.6. -/
theorem c9_greedy_matcher_invariants_witness :
    ((0, 0) ∈ greedyMatchBySignature [⟨"text", str "hello world"⟩]
        [⟨"text", str "hello world"⟩] ∧
      mkRat 3 5 ≤ simAt (⟨"text", str "hello world"⟩ : Block)
        [(⟨"text", str "hello world"⟩ : Block)] 0) := by
  have h := (c9_greedy_matcher_invariants [⟨"text", str "hello world"⟩]
    [⟨"text", str "hello world"⟩]).2.2.1 (0, 0) (by decide)
  exact ⟨by decide, h.2.2⟩

/-!  Construction of a large document pair refuting the rounded-percentage
direction of claim C7. -/

/-- The `n`-th generator word: `w` followed by `n` copies of `a`. -/
def mkWord (n : ℕ) : Line := 'w' :: List.replicate n 'a'

/-- Join words with single spaces. -/
def joinSp : List Line → Line
  | [] => []
  | [w] => w
  | w :: ws => w ++ ' ' :: joinSp ws

/-- A document text made of the first `n` generator words. -/
def mkContent (n : ℕ) : Line := joinSp ((List.range n).map mkWord)

/-- A registered text segment holding 10001 distinct words. -/
def bigDoc1 : FileInfo :=
  { name := "big1", file_type := .text_segment, content := mkContent 10001 }

/-- A registered text segment holding the first 10000 of those words. -/
def bigDoc2 : FileInfo :=
  { name := "big2", file_type := .text_segment, content := mkContent 10000 }

theorem mkWord_chars {c : Char} {n : ℕ} (h : c ∈ mkWord n) : c = 'w' ∨ c = 'a' := by
  rw [mkWord] at h
  rcases List.mem_cons.mp h with h | h
  · exact Or.inl h
  · exact Or.inr (List.eq_of_mem_replicate h)

theorem mkWord_ne_nil (n : ℕ) : mkWord n ≠ [] := by
  rw [mkWord]
  exact List.cons_ne_nil _ _

theorem mkWord_nonspace {c : Char} {n : ℕ} (h : c ∈ mkWord n) :
    isSpaceChar c = false := by
  rcases mkWord_chars h with rfl | rfl <;> decide

theorem mkWord_wordchar {c : Char} {n : ℕ} (h : c ∈ mkWord n) :
    isWordChar c = true := by
  rcases mkWord_chars h with rfl | rfl <;> decide

theorem mkWord_injective : Function.Injective mkWord := by
  intro a b h
  rw [mkWord, mkWord] at h
  have h2 : List.replicate a 'a' = List.replicate b 'a' := by
    injection h
  have h3 := congrArg List.length h2
  simpa using h3

/-- Mapping a function that fixes every member of a list is the
identity. -/
theorem map_eq_self_of {α : Type} (f : α → α) :
    ∀ (l : List α), (∀ c ∈ l, f c = c) → l.map f = l
  | [], _ => rfl
  | c :: t, h => by
    rw [List.map_cons, h c (List.mem_cons_self c t),
      map_eq_self_of f t (fun x hx => h x (List.mem_cons_of_mem c hx))]

theorem joinSp_chars : ∀ (ws : List Line) (c : Char), c ∈ joinSp ws →
    c = ' ' ∨ ∃ w ∈ ws, c ∈ w := by
  intro ws
  induction ws with
  | nil => intro c hc; cases hc
  | cons w ws ih =>
    intro c hc
    cases ws with
    | nil => exact Or.inr ⟨w, List.mem_cons_self _ _, hc⟩
    | cons w2 ws2 =>
      have hc2 : c ∈ w ++ ' ' :: joinSp (w2 :: ws2) := hc
      rcases List.mem_append.mp hc2 with h | h
      · exact Or.inr ⟨w, List.mem_cons_self _ _, h⟩
      · rcases List.mem_cons.mp h with h | h
        · exact Or.inl h
        · rcases ih c h with h | ⟨w', hw', hcw'⟩
          · exact Or.inl h
          · exact Or.inr ⟨w', List.mem_cons_of_mem _ hw', hcw'⟩

theorem joinSp_ne_nil (w : Line) (ws : List Line) (hw : w ≠ []) :
    joinSp (w :: ws) ≠ [] := by
  cases ws with
  | nil => exact hw
  | cons w2 ws2 =>
    show w ++ ' ' :: joinSp (w2 :: ws2) ≠ []
    intro hc
    exact List.cons_ne_nil _ _ (List.append_eq_nil.mp hc).2

theorem pyLower_mkContent (n : ℕ) : pyLower (mkContent n) = mkContent n := by
  refine map_eq_self_of _ _ (fun c hc => ?_)
  rcases joinSp_chars _ c hc with rfl | ⟨w, hw, hcw⟩
  · decide
  · obtain ⟨k, _, rfl⟩ := List.mem_map.mp hw
    rcases mkWord_chars hcw with rfl | rfl <;> decide

theorem splitWsAux_word : ∀ (w : Line), (∀ c ∈ w, isSpaceChar c = false) →
    ∀ (s : List Char) (acc : List Char),
    splitWsAux (w ++ s) acc = splitWsAux s (w.reverse ++ acc) := by
  intro w
  induction w with
  | nil => intro _ s acc; simp
  | cons c w ih =>
    intro h s acc
    rw [List.cons_append]
    show (if isSpaceChar c then _ else splitWsAux (w ++ s) (c :: acc)) = _
    rw [if_neg (by rw [h c (List.mem_cons_self c w)]; exact Bool.false_ne_true),
      ih (fun x hx => h x (List.mem_cons_of_mem c hx)) s (c :: acc)]
    simp

theorem splitWsAux_nil (acc : List Char) :
    splitWsAux [] acc = if acc = [] then [] else [acc.reverse] := by
  rw [splitWsAux]

theorem splitWsAux_space (s : List Char) (acc : List Char) :
    splitWsAux (' ' :: s) acc
      = if acc = [] then splitWsAux s [] else acc.reverse :: splitWsAux s [] := by
  rw [splitWsAux, if_pos]
  decide

theorem pySplitWs_joinSp : ∀ (ws : List Line),
    (∀ w ∈ ws, w ≠ [] ∧ ∀ c ∈ w, isSpaceChar c = false) →
    pySplitWs (joinSp ws) = ws := by
  intro ws
  induction ws with
  | nil => intro _; rfl
  | cons w ws ih =>
    intro h
    obtain ⟨hw, hwns⟩ := h w (List.mem_cons_self _ _)
    cases ws with
    | nil =>
      show splitWsAux (joinSp [w]) [] = [w]
      have hjw : joinSp [w] = w ++ [] := by simp [joinSp]
      rw [hjw, splitWsAux_word w hwns [] [], splitWsAux_nil,
        if_neg (by simpa using hw)]
      simp
    | cons w2 ws2 =>
      show splitWsAux (joinSp (w :: w2 :: ws2)) [] = w :: w2 :: ws2
      have hj : joinSp (w :: w2 :: ws2) = w ++ ' ' :: joinSp (w2 :: ws2) := rfl
      rw [hj, splitWsAux_word w hwns _ [], splitWsAux_space,
        if_neg (by simpa using hw)]
      have hih := ih (fun x hx => h x (List.mem_cons_of_mem _ hx))
      rw [show splitWsAux (joinSp (w2 :: ws2)) [] = pySplitWs (joinSp (w2 :: ws2)) from rfl,
        hih]
      simp

theorem dropWhile_eq_self_of (p : Char → Bool) :
    ∀ (l : List Char), (∀ c ∈ l, p c = false) → l.dropWhile p = l := by
  intro l h
  cases l with
  | nil => rfl
  | cons c t =>
    rw [List.dropWhile_cons, if_neg]
    rw [h c (List.mem_cons_self c t)]
    exact Bool.false_ne_true

theorem pyStrip_eq_self (l : Line) (h : ∀ c ∈ l, isSpaceChar c = false) :
    pyStrip l = l := by
  rw [pyStrip, dropWhile_eq_self_of _ l h, dropWhile_eq_self_of, List.reverse_reverse]
  intro c hc
  exact h c (List.mem_reverse.mp hc)

/-- `filterMap` with a function returning `some` of every member is the
identity. -/
theorem filterMap_some_eq {α : Type} (f : α → Option α) :
    ∀ (l : List α), (∀ x ∈ l, f x = some x) → l.filterMap f = l
  | [], _ => rfl
  | x :: t, h => by
    rw [List.filterMap_cons, h x (List.mem_cons_self x t),
      filterMap_some_eq f t (fun y hy => h y (List.mem_cons_of_mem x hy))]

theorem extractWords_mkContent (n : ℕ) (hn : 1 ≤ n) :
    extractWords cfgDef false (mkContent n) = ((List.range n).map mkWord).toFinset := by
  have hwords : ∀ w ∈ (List.range n).map mkWord,
      w ≠ [] ∧ ∀ c ∈ w, isSpaceChar c = false := by
    intro w hw
    obtain ⟨k, _, rfl⟩ := List.mem_map.mp hw
    exact ⟨mkWord_ne_nil k, fun c hc => mkWord_nonspace hc⟩
  have hne : mkContent n ≠ [] := by
    cases n with
    | zero => exact (Nat.not_succ_le_zero 0 hn).elim
    | succ m =>
      rw [mkContent, List.range_succ_eq_map, List.map_cons]
      exact joinSp_ne_nil _ _ (mkWord_ne_nil 0)
  rw [extractWords, if_neg hne]
  show ((((pySplitWs (pyLower (mkContent n))).map pyStrip).filter
      (fun w => decide (w ≠ []))).filterMap (fun w =>
        let cw := w.filter (fun c => isWordChar c || isSpaceChar c)
        if cw = [] then none else some cw)).toFinset = _
  rw [pyLower_mkContent, show mkContent n = joinSp ((List.range n).map mkWord) from rfl,
    pySplitWs_joinSp _ hwords,
    map_eq_self_of pyStrip _ (fun w hw => pyStrip_eq_self w (hwords w hw).2),
    List.filter_eq_self.mpr (fun w hw => decide_eq_true (hwords w hw).1),
    filterMap_some_eq _ _ (fun w hw => ?_)]
  have hkeep : w.filter (fun c => isWordChar c || isSpaceChar c) = w :=
    List.filter_eq_self.mpr (fun c hc => by
      obtain ⟨k, _, rfl⟩ := List.mem_map.mp hw
      rw [mkWord_wordchar hc]
      rfl)
  show (if w.filter (fun c => isWordChar c || isSpaceChar c) = []
    then none else some (w.filter (fun c => isWordChar c || isSpaceChar c))) = some w
  rw [hkeep, if_neg (hwords w hw).1]

theorem nodup_range_map_mkWord (n : ℕ) : ((List.range n).map mkWord).Nodup :=
  (List.nodup_range n).map mkWord_injective

theorem card_range_map_mkWord (n : ℕ) :
    ((List.range n).map mkWord).toFinset.card = n := by
  rw [List.toFinset_card_of_nodup (nodup_range_map_mkWord n)]
  simp

theorem range_map_mkWord_subset :
    ((List.range 10000).map mkWord).toFinset ⊆
      ((List.range 10001).map mkWord).toFinset := by
  intro x hx
  rw [List.mem_toFinset] at *
  obtain ⟨k, hk, rfl⟩ := List.mem_map.mp hx
  refine List.mem_map.mpr ⟨k, List.mem_range.mpr ?_, rfl⟩
  have := List.mem_range.mp hk
  omega

theorem wordSetsOf_fst (cfg : AnalysisConfig) (n1 n2 : String) (t1 t2 : FileType)
    (c1 c2 : Line) :
    (wordSetsOf cfg ⟨n1, t1, c1⟩ ⟨n2, t2, c2⟩).1 = extractWords cfg
      (decide (t1 = FileType.pdf ∨ t2 = FileType.pdf)
        && !(decide (t1 = FileType.pdf))) c1 := rfl

theorem wordSetsOf_snd (cfg : AnalysisConfig) (n1 n2 : String) (t1 t2 : FileType)
    (c1 c2 : Line) :
    (wordSetsOf cfg ⟨n1, t1, c1⟩ ⟨n2, t2, c2⟩).2 = extractWords cfg
      (decide (t1 = FileType.pdf ∨ t2 = FileType.pdf)
        && !(decide (t2 = FileType.pdf))) c2 := rfl

theorem compareFiles_sim_eq (cfg : AnalysisConfig) (f1 f2 : FileInfo) :
    (compareFiles cfg f1 f2).similarity_percentage
      = pyRound2 (similarityExact cfg f1 f2) := rfl

theorem compareFiles_diff_eq (cfg : AnalysisConfig) (f1 f2 : FileInfo) :
    (compareFiles cfg f1 f2).difference_percentage
      = pyRound2 (differenceExact cfg f1 f2) := rfl

theorem bigFlag_false :
    (decide (FileType.text_segment = FileType.pdf ∨
        FileType.text_segment = FileType.pdf)
      && !(decide (FileType.text_segment = FileType.pdf))) = false := rfl

/-- C7 (counterexample): 10001 distinct words compared against the first
10000 of them.  The word sets differ, yet the comparator reports
similarity 100 and difference 0: the unrounded values 2000000/20001 and
10000/20001 percent round, at two decimals, to exactly 100 and 0. -/
theorem c7_counterexample_rounded_percentages_for_unequal_sets :
    (compareFiles cfgDef bigDoc1 bigDoc2).similarity_percentage = 100 ∧
    (compareFiles cfgDef bigDoc1 bigDoc2).difference_percentage = 0 ∧
    (wordSetsOf cfgDef bigDoc1 bigDoc2).1 ≠ (wordSetsOf cfgDef bigDoc1 bigDoc2).2 := by
  have hb1 : bigDoc1 = ⟨"big1", FileType.text_segment, mkContent 10001⟩ := rfl
  have hb2 : bigDoc2 = ⟨"big2", FileType.text_segment, mkContent 10000⟩ := rfl
  rw [hb1, hb2]
  have h1 := wordSetsOf_fst cfgDef "big1" "big2" FileType.text_segment
    FileType.text_segment (mkContent 10001) (mkContent 10000)
  have h2 := wordSetsOf_snd cfgDef "big1" "big2" FileType.text_segment
    FileType.text_segment (mkContent 10001) (mkContent 10000)
  rw [bigFlag_false] at h1 h2
  have hws1 : (wordSetsOf cfgDef ⟨"big1", FileType.text_segment, mkContent 10001⟩
      ⟨"big2", FileType.text_segment, mkContent 10000⟩).1
      = ((List.range 10001).map mkWord).toFinset :=
    h1.trans (extractWords_mkContent 10001 (by norm_num))
  have hws2 : (wordSetsOf cfgDef ⟨"big1", FileType.text_segment, mkContent 10001⟩
      ⟨"big2", FileType.text_segment, mkContent 10000⟩).2
      = ((List.range 10000).map mkWord).toFinset :=
    h2.trans (extractWords_mkContent 10000 (by norm_num))
  have hinter : ((List.range 10001).map mkWord).toFinset ∩
      ((List.range 10000).map mkWord).toFinset
      = ((List.range 10000).map mkWord).toFinset :=
    Finset.inter_eq_right.mpr range_map_mkWord_subset
  have hsd1 : (((List.range 10001).map mkWord).toFinset \
      ((List.range 10000).map mkWord).toFinset).card = 1 := by
    rw [Finset.card_sdiff range_map_mkWord_subset,
      card_range_map_mkWord, card_range_map_mkWord]
  have hsd2 : (((List.range 10000).map mkWord).toFinset \
      ((List.range 10001).map mkWord).toFinset).card = 0 := by
    rw [Finset.sdiff_eq_empty_iff_subset.mpr range_map_mkWord_subset]
    rfl
  have hsimv : similarityExact cfgDef ⟨"big1", FileType.text_segment, mkContent 10001⟩
      ⟨"big2", FileType.text_segment, mkContent 10000⟩ = mkRat 2000000 20001 := by
    simp only [similarityExact, hws1, hws2, hinter, card_range_map_mkWord]
    rw [if_neg (by norm_num)]
    rw [qMul_eq, qDiv_eq, mkRat_eq_div']
    push_cast
    norm_num
  have hdiffv : differenceExact cfgDef ⟨"big1", FileType.text_segment, mkContent 10001⟩
      ⟨"big2", FileType.text_segment, mkContent 10000⟩ = mkRat 10000 2000100 := by
    simp only [differenceExact, hws1, hws2, hsd1, hsd2, card_range_map_mkWord]
    rw [if_neg (by norm_num)]
    rw [qMul_eq, qDiv_eq, mkRat_eq_div']
    push_cast
    norm_num
  refine ⟨?_, ?_, ?_⟩
  · rw [compareFiles_sim_eq, hsimv]
    decide
  · rw [compareFiles_diff_eq, hdiffv]
    decide
  · rw [hws1, hws2]
    intro hc
    have h1 := card_range_map_mkWord 10001
    rw [hc, card_range_map_mkWord] at h1
    omega

end FDA
